import Mathlib

/-!
Shallow embedding of the traffic-violation detection core of this repository:
the vehicle tracker (`app/ai/vehicle_tracker.py`), the red-light crossing
detector (`app/ai/red_light.py`) and the violation coordinator embedded in
`process_video_stream` (`app/sockets.py`).

Modelling conventions:
* Python floats are modelled as exact rationals (`ℚ`); pixel coordinates and
  frame indices are integers, exactly as produced by the detector
  (`detector.py` casts every bbox coordinate with `int`).
* Python dicts (insertion ordered) are modelled as association lists
  `List (Nat × α)`; assignment to an existing key keeps its position,
  assignment to a fresh key appends, deletion removes the entry.
* `numpy.sqrt` is modelled by `pySqrt`, the floor square root on the
  (always integral, always nonnegative) squared pixel distance.  It agrees
  with the source exactly on perfect squares, and every concrete evaluation
  below uses perfect-square distances.
* A Python `ZeroDivisionError` is modelled by returning `none`; operations
  that cannot raise return plain values.
-/

namespace Traffic

attribute [local semireducible] Rat.add Rat.mul Rat.inv Rat.sub

/-- Association list lookup: the value paired with the first occurrence of the
key, mirroring a Python dict read. -/
def lookupKey {α : Type} (k : Nat) : List (Nat × α) → Option α
  | [] => none
  | p :: l => if p.1 = k then some p.2 else lookupKey k l

/-- Association list write `d[k] = v`: replace the value at the key if present
(keeping its position, as Python dicts do), otherwise append a new entry. -/
def upsertKey {α : Type} (k : Nat) (v : α) : List (Nat × α) → List (Nat × α)
  | [] => [(k, v)]
  | p :: l => if p.1 = k then (k, v) :: l else p :: upsertKey k v l

/-- Association list `del d[k]`. -/
def eraseKey {α : Type} (k : Nat) : List (Nat × α) → List (Nat × α)
  | [] => []
  | p :: l => if p.1 = k then eraseKey k l else p :: eraseKey k l

/-- Update the value stored at a key in place (a Python
`d[k][field] = ...` style mutation); keys and positions are unchanged. -/
def modifyKey {α : Type} (k : Nat) (f : α → α) : List (Nat × α) → List (Nat × α)
  | [] => []
  | p :: l => if p.1 = k then (p.1, f p.2) :: modifyKey k f l else p :: modifyKey k f l

/-- Axis-aligned bounding box `[x1, y1, x2, y2]` in integer pixel space. -/
structure Box where
  x1 : ℤ
  y1 : ℤ
  x2 : ℤ
  y2 : ℤ
deriving DecidableEq, Repr

/-- Area `(x2 - x1) * (y2 - y1)` of a box. -/
def boxArea (b : Box) : ℤ := (b.x2 - b.x1) * (b.y2 - b.y1)

/-- Embedding of `VehicleTracker.calculate_iou` (vehicle_tracker.py lines
29-61): intersection over union with early return 0 for disjoint boxes and
for zero union. -/
def calculate_iou (b1 b2 : Box) : ℚ :=
  let x1i := max b1.x1 b2.x1
  let y1i := max b1.y1 b2.y1
  let x2i := min b1.x2 b2.x2
  let y2i := min b1.y2 b2.y2
  if x2i < x1i ∨ y2i < y1i then 0
  else
    let intersection := (x2i - x1i) * (y2i - y1i)
    let union := boxArea b1 + boxArea b2 - intersection
    if union = 0 then 0
    else (intersection : ℚ) / (union : ℚ)

/-- The IoU formula exactly as the specification words it:
`area(intersection) / (area(a)+area(b)-area(intersection))`, where the
intersection area is clamped at 0 for disjoint boxes (division by zero in `ℚ`
is 0, giving the "defined as 0" cases). Stated from the spec for comparison
with `calculate_iou`. -/
def specIoU (b1 b2 : Box) : ℚ :=
  let iw := max 0 (min b1.x2 b2.x2 - max b1.x1 b2.x1)
  let ih := max 0 (min b1.y2 b2.y2 - max b1.y1 b2.y1)
  let inter := iw * ih
  (inter : ℚ) / ((boxArea b1 : ℚ) + (boxArea b2 : ℚ) - (inter : ℚ))

/-- Two boxes overlap when their intersection has positive width and height. -/
def boxesOverlap (b1 b2 : Box) : Prop :=
  max b1.x1 b2.x1 < min b1.x2 b2.x2 ∧ max b1.y1 b2.y1 < min b1.y2 b2.y2

instance (b1 b2 : Box) : Decidable (boxesOverlap b1 b2) := by
  unfold boxesOverlap; infer_instance

/-- One detection handed to the tracker: bounding box, class name,
confidence. -/
structure Detection where
  bbox : Box
  className : String
  confidence : ℚ
deriving DecidableEq, Repr

/-- Per-track state held in `VehicleTracker.tracked_vehicles`. -/
structure Vehicle where
  bbox : Box
  className : String
  confidence : ℚ
  firstFrame : Nat
  lastFrame : Nat
  framesMissing : Nat
  violationCount : Nat
  licensePlate : Option String
  hasViolated : Bool
  violatedTypes : List String
  centroids : List (ℤ × ℤ)
  speedKmh : ℚ
deriving DecidableEq, Repr

/-- State of a `VehicleTracker` instance. -/
structure Tracker where
  next_id : Nat
  tracked : List (Nat × Vehicle)
  iou_threshold : ℚ
  max_missing_frames : Nat
  totalViolationsCumulative : Nat
deriving DecidableEq, Repr

/-- `VehicleTracker.__init__`. -/
def Tracker.init (thr : ℚ) (mmf : Nat) : Tracker :=
  { next_id := 1, tracked := [], iou_threshold := thr, max_missing_frames := mmf,
    totalViolationsCumulative := 0 }

/-- Centroid of a box, with Python floor division `//`. -/
def boxCentroid (b : Box) : ℤ × ℤ := ((b.x1 + b.x2).fdiv 2, (b.y1 + b.y2).fdiv 2)

/-- The best-match loop of `VehicleTracker.update` (lines 85-98): scan the
tracked vehicles in dict order keeping the strictly-highest IoU that is at
or above the threshold among same-class tracks; `best_iou` starts at 0 so a
match needs IoU strictly above 0. -/
def fbmStep (bbox : Box) (cls : String) (thr : ℚ) (acc : Option Nat × ℚ)
    (p : Nat × Vehicle) : Option Nat × ℚ :=
  if p.2.className ≠ cls then acc
  else
    let iou := calculate_iou bbox p.2.bbox
    if iou > acc.2 ∧ iou ≥ thr then (some p.1, iou) else acc

def findBestMatch (tracks : List (Nat × Vehicle)) (bbox : Box) (cls : String)
    (thr : ℚ) : Option Nat :=
  (tracks.foldl (fbmStep bbox cls thr) (none, 0)).1

/-- Snapshot row returned by `VehicleTracker.update` for each matched or
created track. -/
structure TrackView where
  id : Nat
  bbox : Box
  className : String
  confidence : ℚ
  violationCount : Nat
  licensePlate : Option String
  speedKmh : ℚ
deriving DecidableEq, Repr

/-- Centroid history append with the 30-entry cap (lines 110-114): append,
then drop the oldest entry if the length exceeds 30. -/
def appendCentroid (cs : List (ℤ × ℤ)) (c : ℤ × ℤ) : List (ℤ × ℤ) :=
  let cs2 := cs ++ [c]
  if cs2.length > 30 then cs2.tail else cs2

/-- Body of the per-detection loop of `VehicleTracker.update` (lines 80-157):
match the detection against the (possibly already modified mid-call) track
map, updating the matched track in place or allocating a fresh track. -/
def stepDet (thr : ℚ) (frameIdx : Nat) (acc : Tracker × List TrackView)
    (det : Detection) : Tracker × List TrackView :=
  let t := acc.1
  let out := acc.2
  match findBestMatch t.tracked det.bbox det.className thr with
  | some vid =>
    match lookupKey vid t.tracked with
    | none => (t, out)
    | some v0 =>
      let v1 : Vehicle :=
        { v0 with
          bbox := det.bbox
          confidence := det.confidence
          lastFrame := frameIdx
          framesMissing := 0
          centroids := appendCentroid v0.centroids (boxCentroid det.bbox) }
      let t2 := { t with tracked := modifyKey vid (fun _ => v1) t.tracked }
      (t2, out ++ [{ id := vid
                     bbox := det.bbox
                     className := det.className
                     confidence := det.confidence
                     violationCount := v1.violationCount
                     licensePlate := v1.licensePlate
                     speedKmh := v1.speedKmh }])
  | none =>
    let vid := t.next_id
    let v : Vehicle :=
      { bbox := det.bbox
        className := det.className
        confidence := det.confidence
        firstFrame := frameIdx
        lastFrame := frameIdx
        framesMissing := 0
        violationCount := 0
        licensePlate := none
        hasViolated := false
        violatedTypes := []
        centroids := [boxCentroid det.bbox]
        speedKmh := 0 }
    ({ t with next_id := vid + 1, tracked := t.tracked ++ [(vid, v)] },
     out ++ [{ id := vid
               bbox := det.bbox
               className := det.className
               confidence := det.confidence
               violationCount := 0
               licensePlate := none
               speedKmh := 0 }])

/-- One vehicle aged by a frame: `frames_missing` incremented by 1. -/
def ageVehicle (v : Vehicle) : Vehicle := { v with framesMissing := v.framesMissing + 1 }

/-- The aging loop at the top of `VehicleTracker.update` (lines 74-76):
every tracked vehicle has `frames_missing` incremented by 1. -/
def ageTracker (t : Tracker) : Tracker :=
  { t with tracked := t.tracked.map (fun p => (p.1, ageVehicle p.2)) }

/-- Embedding of `VehicleTracker.update` (lines 63-168): age every track,
greedily process the detections, then remove tracks whose missing counter
exceeds `max_missing_frames`. -/
def Tracker.update (t : Tracker) (dets : List Detection) (frameIdx : Nat) :
    Tracker × List TrackView :=
  let r := dets.foldl (stepDet t.iou_threshold frameIdx) (ageTracker t, [])
  ({ r.1 with tracked :=
      r.1.tracked.filter (fun p => decide (¬ p.2.framesMissing > t.max_missing_frames)) },
   r.2)

/-- Structural integer Newton iteration (the fuel bounds the number of
steps; the guess strictly decreases, so `n` steps always suffice). -/
def sqrtIter : Nat → Nat → Nat → Nat
  | 0, _, g => g
  | fuel + 1, n, g =>
    let next := (g + n / g) / 2
    if next < g then sqrtIter fuel n next else g

/-- Floor square root used to model `numpy.sqrt` on the squared pixel
distance (an integer, nonnegative by construction).  It is exact on perfect
squares; all concrete evaluations in this file use perfect-square
distances, where it agrees with the source bit for bit. -/
def pySqrt (z : ℤ) : ℚ :=
  let n := z.toNat
  ((if n ≤ 1 then n else sqrtIter n n (n / 2) : Nat) : ℚ)

/-- Embedding of `VehicleTracker.calculate_speed` (lines 170-203).  A
`none` result models a Python `ZeroDivisionError` (raised when `ppm` or
`fps` is 0 at the corresponding divisions); otherwise the pair is the
returned speed and the tracker with the cached speed written back. -/
def Tracker.calculate_speed (t : Tracker) (vid : Nat) (fps ppm : ℚ) :
    Option (ℚ × Tracker) :=
  match lookupKey vid t.tracked with
  | none => some (0, t)
  | some v =>
    if v.centroids.length < 2 then some (v.speedKmh, t)
    else
      let ftu := min 5 v.centroids.length
      let p1 := v.centroids.getD (v.centroids.length - ftu) (0, 0)
      let p2 := v.centroids.getD (v.centroids.length - 1) (0, 0)
      let pixelDist : ℚ := pySqrt ((p2.1 - p1.1) * (p2.1 - p1.1) + (p2.2 - p1.2) * (p2.2 - p1.2))
      if ppm = 0 then none
      else
        let realDistM := pixelDist / ppm
        if fps = 0 then none
        else
          let timeElapsedS := (ftu : ℚ) / fps
          let raw := if timeElapsedS > 0 then realDistM / timeElapsedS * (36 / 10) else 0
          let speedKmh := if v.speedKmh > 0 then v.speedKmh * (6 / 10) + raw * (4 / 10) else raw
          some (speedKmh,
            { t with tracked := modifyKey vid (fun w => { w with speedKmh := speedKmh }) t.tracked })

/-- Embedding of `VehicleTracker.mark_violation` (lines 205-228).  The
migration branch for a missing `violated_types` key (lines 217-220) is
unreachable here: every track is created by `update` with the field
present, so it is omitted. -/
def Tracker.mark_violation (t : Tracker) (vid : Nat) (vtype : String) :
    Bool × Tracker :=
  match lookupKey vid t.tracked with
  | none => (false, t)
  | some v =>
    if vtype ∈ v.violatedTypes then (false, t)
    else
      (true,
       { t with
         tracked := modifyKey vid
           (fun w =>
             { w with
               violatedTypes := vtype :: w.violatedTypes
               violationCount := w.violationCount + 1
               hasViolated := true }) t.tracked
         totalViolationsCumulative := t.totalViolationsCumulative + 1 })

/-- Embedding of `VehicleTracker.update_license_plate` (lines 230-233). -/
def Tracker.update_license_plate (t : Tracker) (vid : Nat) (plate : String) :
    Tracker :=
  { t with tracked := modifyKey vid (fun v => { v with licensePlate := some plate }) t.tracked }

/-- Side of the stop line a vehicle is on, as stored in
`RedLightSystem.vehicle_positions`. -/
inductive Side where
  | before
  | after
deriving DecidableEq, Repr

/-- State of a `RedLightSystem` instance (the fields the crossing logic
uses; the traffic-light localisation cache is external vision plumbing). -/
structure RedLightState where
  stopLineY : Option ℤ
  positions : List (Nat × Side)
deriving DecidableEq, Repr

/-- Embedding of `RedLightSystem.check_violation` (red_light.py lines
125-158): returns the fired flag together with the updated position map. -/
def checkViolation (rl : RedLightState) (vid : Nat) (bbox : Box)
    (signal : String) : Bool × RedLightState :=
  match rl.stopLineY with
  | none => (false, rl)
  | some y =>
    let current := if bbox.y2 > y then Side.after else Side.before
    let previous := (lookupKey vid rl.positions).getD Side.before
    let rl2 := { rl with positions := upsertKey vid current rl.positions }
    (decide (signal = "red" ∧ previous = Side.before ∧ current = Side.after), rl2)

/-- Python `round(x, 1)` used when persisting the speed
(`round(final_speed, 1)` in sockets.py line 329), abstracted as rounding the
exact rational to the nearest tenth (ties upward); no value evaluated in
this file sits on a tie. -/
def roundTo1 (q : ℚ) : ℚ := ((q * 10 + 1 / 2).floor : ℚ) / 10

/-- A pending violation queued in `pending_violations` (sockets.py lines
239-249).  The snapshot image and video path strings are plumbing and
carry no logic, so they are not modelled. -/
structure Pending where
  detectedFrame : Nat
  vehicleType : String
  plateText : String
  signalState : String
  violationType : String
  bbox : Box
deriving DecidableEq, Repr

/-- A `Violation` database record as built at sockets.py lines 324-336
(the fields the coordinator computes; timestamps and file paths are
persistence plumbing). -/
structure ViolationRecord where
  violationType : String
  vehicleType : String
  licensePlate : String
  speedKmh : ℚ
  signalState : String
  frameNumber : Nat
deriving DecidableEq, Repr

/-- Configuration read from the app config inside the frame loop:
`SPEED_LIMIT`, `PIXELS_PER_METER` and the video fps. -/
structure CoordConfig where
  speedLimit : ℚ
  ppm : ℚ
  fps : ℚ
deriving DecidableEq, Repr

/-- State threaded through `process_video_stream`: the tracker, the
red-light system, the pending-violation queue, the list of persisted
records (the database session, modelled as always committing), and the
current frame index. -/
structure CoordState where
  tracker : Tracker
  redLight : RedLightState
  pending : List (Nat × Pending)
  saved : List ViolationRecord
  frameIdx : Nat
deriving DecidableEq, Repr

/-- Initial coordinator state at the top of `process_video_stream`
(frame index 0, empty pending queue, fresh tracker with threshold 0.3 and
`max_missing_frames` 10, stop line from the ROI config). -/
def CoordState.init (stopLineY : Option ℤ) : CoordState :=
  { tracker := Tracker.init (3 / 10) 10
    redLight := { stopLineY := stopLineY, positions := [] }
    pending := []
    saved := []
    frameIdx := 0 }

/-- Embedding of the inner helper `process_violation_event` (sockets.py
lines 194-251).  The OCR fallback is the external ANPR collaborator; the
parameter `anpr` gives, per vehicle, the validated plate text the scan
produced, if any (`none` covers an empty crop, an OCR exception, or a
rejected read).  `plate_cache` is never written anywhere in the source, so
the pre-captured branch (lines 205-207) is dead and the default
`ID-<vehicle>` text is used when the scan yields nothing.  Snapshot image
writing is external I/O and not modelled. -/
def processViolationEvent (anpr : Nat → Option String) (st : CoordState)
    (vid : Nat) (vtype : String) (bbox : Box) (signal : String)
    (cls : String) : CoordState :=
  let r := Tracker.mark_violation st.tracker vid vtype
  if r.1 then
    let pr : String × Tracker :=
      match anpr vid with
      | some tx => (tx, Tracker.update_license_plate r.2 vid tx)
      | none => ("ID-" ++ toString vid, r.2)
    { st with
      tracker := pr.2
      pending := upsertKey vid
        { detectedFrame := st.frameIdx
          vehicleType := cls
          plateText := pr.1
          signalState := signal
          violationType := vtype
          bbox := bbox } st.pending }
  else { st with tracker := r.2 }

/-- Resolution of one pending entry inside the deferred-confirmation loop
(sockets.py lines 304-344): once at least 5 frames old, recompute the
speed, discard a speeding entry whose recomputed speed is at or below the
limit, otherwise persist a record with the rounded recomputed speed and
the best plate known (Python truthiness: an empty tracked plate string
falls back to the snapshot plate), and delete the entry either way. -/
def resolveOne (cfg : CoordConfig) (st : CoordState) (vid : Nat)
    (p : Pending) : Option CoordState :=
  if (st.frameIdx : ℤ) - (p.detectedFrame : ℤ) ≥ 5 then
    (Tracker.calculate_speed st.tracker vid cfg.fps cfg.ppm).map
      (fun r =>
        let finalSpeed := r.1
        let trackedPlate := (lookupKey vid r.2.tracked).bind (fun v => v.licensePlate)
        let finalPlate :=
          match trackedPlate with
          | some tx => if tx = "" then p.plateText else tx
          | none => p.plateText
        let st1 := { st with tracker := r.2 }
        let st2 :=
          if p.violationType = "Speeding Violation" ∧ finalSpeed ≤ cfg.speedLimit then st1
          else
            { st1 with saved := st1.saved ++
                [{ violationType := p.violationType
                   vehicleType := p.vehicleType
                   licensePlate := finalPlate
                   speedKmh := roundTo1 finalSpeed
                   signalState := p.signalState
                   frameNumber := p.detectedFrame }] }
        { st2 with pending := eraseKey vid st2.pending })
  else some st

/-- The `for vid in list(pending_violations.keys())` loop (sockets.py line
304): iterate over a snapshot of the keys, reading each entry from the
current queue. -/
def processPendings (cfg : CoordConfig) (st : CoordState) : Option CoordState :=
  (st.pending.map Prod.fst).foldlM
    (fun s vid =>
      match lookupKey vid s.pending with
      | some p => resolveOne cfg s vid p
      | none => some s) st

/-- The red-light and speeding checks of the per-vehicle loop body
(sockets.py lines 295-301), each possibly queueing a pending violation
via `process_violation_event`. -/
def vehicleChecks (cfg : CoordConfig) (anpr : Nat → Option String)
    (signal : String) (st1 : CoordState) (veh : TrackView) (speedKmh : ℚ) :
    CoordState :=
  let rl := checkViolation st1.redLight veh.id veh.bbox signal
  let st2 : CoordState := { st1 with redLight := rl.2 }
  let st3 :=
    if rl.1 then
      processViolationEvent anpr st2 veh.id "Red Light Violation" veh.bbox signal veh.className
    else st2
  if speedKmh > cfg.speedLimit then
    processViolationEvent anpr st3 veh.id "Speeding Violation" veh.bbox signal veh.className
  else st3

/-- Body of the `for vehicle in tracked_vehicles` loop (sockets.py lines
283-344): compute the speed, run the red-light check and the speeding
check (each possibly queueing a pending violation), then run the
pending-resolution loop.  A `none` result propagates a
`ZeroDivisionError` from the speed computation. -/
def processVehicle (cfg : CoordConfig) (anpr : Nat → Option String)
    (signal : String) (st : CoordState) (veh : TrackView) :
    Option CoordState :=
  (Tracker.calculate_speed st.tracker veh.id cfg.fps cfg.ppm).bind
    (fun r =>
      processPendings cfg (vehicleChecks cfg anpr signal { st with tracker := r.2 } veh r.1))

/-- One iteration of the frame loop of `process_video_stream` (sockets.py
lines 253-391), restricted to the tracking/violation state: update the
tracker with the frame detections, process every tracked vehicle, then
advance the frame counter.  The externally computed signal colour is an
input; drawing, streaming and recording are outputs with no effect on this
state. -/
def processFrame (cfg : CoordConfig) (anpr : Nat → Option String)
    (st : CoordState) (dets : List Detection) (signal : String) :
    Option CoordState :=
  let u := Tracker.update st.tracker dets st.frameIdx
  let st0 : CoordState := { st with tracker := u.1 }
  (u.2.foldlM (processVehicle cfg anpr signal) st0).map
    (fun s => { s with frameIdx := s.frameIdx + 1 })

/-- Fold `processFrame` over a list of per-frame inputs (detections and
signal colour). -/
def runFrames (cfg : CoordConfig) (anpr : Nat → Option String)
    (st : CoordState) (frames : List (List Detection × String)) :
    Option CoordState :=
  frames.foldlM (fun s f => processFrame cfg anpr s f.1 f.2) st

lemma iou_eq_spec (b1 b2 : Box) : calculate_iou b1 b2 = specIoU b1 b2 := by
  simp only [calculate_iou, specIoU, boxArea]
  by_cases hx : min b1.x2 b2.x2 < max b1.x1 b2.x1
  · rw [if_pos (Or.inl hx),
      max_eq_left (show min b1.x2 b2.x2 - max b1.x1 b2.x1 ≤ 0 by omega)]
    simp
  · by_cases hy : min b1.y2 b2.y2 < max b1.y1 b2.y1
    · rw [if_pos (Or.inr hy),
        max_eq_left (show min b1.y2 b2.y2 - max b1.y1 b2.y1 ≤ 0 by omega)]
      simp
    · rw [if_neg (by push_neg; exact ⟨le_of_not_lt hx, le_of_not_lt hy⟩),
        max_eq_right (show (0 : ℤ) ≤ min b1.x2 b2.x2 - max b1.x1 b2.x1 by omega),
        max_eq_right (show (0 : ℤ) ≤ min b1.y2 b2.y2 - max b1.y1 b2.y1 by omega)]
      set w : ℤ := min b1.x2 b2.x2 - max b1.x1 b2.x1 with hw
      set v : ℤ := min b1.y2 b2.y2 - max b1.y1 b2.y1 with hv
      set a1 : ℤ := (b1.x2 - b1.x1) * (b1.y2 - b1.y1) with ha1
      set a2 : ℤ := (b2.x2 - b2.x1) * (b2.y2 - b2.y1) with ha2
      by_cases hu : a1 + a2 - w * v = 0
      · rw [if_pos hu]
        have hden : ((a1 : ℚ) + (a2 : ℚ) - ((w * v : ℤ) : ℚ)) = 0 := by exact_mod_cast hu
        rw [hden, div_zero]
      · rw [if_neg hu]
        push_cast
        ring_nf

lemma iou_zero_of_degenerate (b1 b2 : Box)
    (h1x : b1.x1 ≤ b1.x2) (h1y : b1.y1 ≤ b1.y2)
    (h2x : b2.x1 ≤ b2.x2) (h2y : b2.y1 ≤ b2.y2)
    (h : ¬ boxesOverlap b1 b2 ∨ boxArea b1 = 0 ∨ boxArea b2 = 0) :
    calculate_iou b1 b2 = 0 := by
  simp only [calculate_iou, boxArea]
  by_cases hc : min b1.x2 b2.x2 < max b1.x1 b2.x1 ∨ min b1.y2 b2.y2 < max b1.y1 b2.y1
  · rw [if_pos hc]
  · rw [if_neg hc]
    push_neg at hc
    have hinter : (min b1.x2 b2.x2 - max b1.x1 b2.x1) * (min b1.y2 b2.y2 - max b1.y1 b2.y1) = 0 := by
      rcases h with hno | ha1 | ha2
      · unfold boxesOverlap at hno
        push_neg at hno
        rcases le_or_lt (min b1.x2 b2.x2) (max b1.x1 b2.x1) with hle | hlt
        · have hz : min b1.x2 b2.x2 - max b1.x1 b2.x1 = 0 := by omega
          rw [hz, zero_mul]
        · have hz : min b1.y2 b2.y2 - max b1.y1 b2.y1 = 0 := by
            have := hno hlt
            omega
          rw [hz, mul_zero]
      · unfold boxArea at ha1
        rcases mul_eq_zero.mp ha1 with hzz | hzz
        · have hz : min b1.x2 b2.x2 - max b1.x1 b2.x1 = 0 := by omega
          rw [hz, zero_mul]
        · have hz : min b1.y2 b2.y2 - max b1.y1 b2.y1 = 0 := by omega
          rw [hz, mul_zero]
      · unfold boxArea at ha2
        rcases mul_eq_zero.mp ha2 with hzz | hzz
        · have hz : min b1.x2 b2.x2 - max b1.x1 b2.x1 = 0 := by omega
          rw [hz, zero_mul]
        · have hz : min b1.y2 b2.y2 - max b1.y1 b2.y1 = 0 := by omega
          rw [hz, mul_zero]
    rw [hinter]
    by_cases hu : (b1.x2 - b1.x1) * (b1.y2 - b1.y1) + (b2.x2 - b2.x1) * (b2.y2 - b2.y1) - 0 = 0
    · rw [if_pos hu]
    · rw [if_neg hu]
      simp

/-- C8: `calculate_iou` computes exactly the specified formula
`area(intersection) / (area(a)+area(b)-area(intersection))` on every pair
of boxes with nonnegative extents, is 0 whenever the boxes do not overlap
or either box has zero area, and gives 25/175 on the spec example pair. -/
theorem iou_correct (b1 b2 : Box)
    (h1x : b1.x1 ≤ b1.x2) (h1y : b1.y1 ≤ b1.y2)
    (h2x : b2.x1 ≤ b2.x2) (h2y : b2.y1 ≤ b2.y2) :
    calculate_iou b1 b2 = specIoU b1 b2 ∧
    ((¬ boxesOverlap b1 b2 ∨ boxArea b1 = 0 ∨ boxArea b2 = 0) →
      calculate_iou b1 b2 = 0) ∧
    calculate_iou ⟨0, 0, 10, 10⟩ ⟨5, 5, 15, 15⟩ = 25 / 175 :=
  ⟨iou_eq_spec b1 b2,
   fun h => iou_zero_of_degenerate b1 b2 h1x h1y h2x h2y h,
   by decide⟩

/-- C8 witness: the theorem applied to the spec example boxes. -/
theorem iou_correct_witness :
    ((0 : ℤ) ≤ 10 ∧ (5 : ℤ) ≤ 15) ∧
    calculate_iou ⟨0, 0, 10, 10⟩ ⟨5, 5, 15, 15⟩ = specIoU ⟨0, 0, 10, 10⟩ ⟨5, 5, 15, 15⟩ ∧
    calculate_iou ⟨0, 0, 10, 10⟩ ⟨5, 5, 15, 15⟩ = 25 / 175 :=
  ⟨⟨by decide, by decide⟩,
   (iou_correct ⟨0, 0, 10, 10⟩ ⟨5, 5, 15, 15⟩ (by decide) (by decide) (by decide) (by decide)).1,
   (iou_correct ⟨0, 0, 10, 10⟩ ⟨5, 5, 15, 15⟩ (by decide) (by decide) (by decide) (by decide)).2.2⟩

lemma lookupKey_modifyKey_self {α : Type} (k : Nat) (f : α → α) (l : List (Nat × α)) :
    lookupKey k (modifyKey k f l) = (lookupKey k l).map f := by
  induction l with
  | nil => rfl
  | cons p l ih =>
    simp only [modifyKey, lookupKey]
    by_cases hp : p.1 = k
    · rw [if_pos hp]
      simp only [lookupKey]
      rw [if_pos hp, if_pos hp]
      rfl
    · rw [if_neg hp]
      simp only [lookupKey]
      rw [if_neg hp, if_neg hp]
      exact ih

lemma lookupKey_modifyKey_ne {α : Type} (k k2 : Nat) (f : α → α) (l : List (Nat × α))
    (h : k ≠ k2) : lookupKey k2 (modifyKey k f l) = lookupKey k2 l := by
  induction l with
  | nil => rfl
  | cons p l ih =>
    simp only [modifyKey, lookupKey]
    by_cases hp : p.1 = k
    · rw [if_pos hp]
      simp only [lookupKey]
      have h1 : ¬ p.1 = k2 := by rw [hp]; exact h
      rw [if_neg h1, if_neg h1]
      exact ih
    · rw [if_neg hp]
      simp only [lookupKey]
      by_cases hp2 : p.1 = k2
      · rw [if_pos hp2, if_pos hp2]
      · rw [if_neg hp2, if_neg hp2]
        exact ih

lemma lookupKey_upsertKey_self {α : Type} (k : Nat) (v : α) (l : List (Nat × α)) :
    lookupKey k (upsertKey k v l) = some v := by
  induction l with
  | nil => simp [lookupKey, upsertKey]
  | cons p l ih =>
    simp only [upsertKey]
    by_cases hp : p.1 = k
    · rw [if_pos hp]
      simp [lookupKey]
    · rw [if_neg hp]
      simp only [lookupKey]
      rw [if_neg hp]
      exact ih

lemma lookupKey_upsertKey_ne {α : Type} (k k2 : Nat) (v : α) (l : List (Nat × α))
    (h : k ≠ k2) : lookupKey k2 (upsertKey k v l) = lookupKey k2 l := by
  induction l with
  | nil =>
    simp only [upsertKey, lookupKey]
    rw [if_neg h]
  | cons p l ih =>
    simp only [upsertKey]
    by_cases hp : p.1 = k
    · rw [if_pos hp]
      simp only [lookupKey]
      have h1 : ¬ p.1 = k2 := by rw [hp]; exact h
      rw [if_neg h, if_neg h1]
    · rw [if_neg hp]
      simp only [lookupKey]
      by_cases hp2 : p.1 = k2
      · rw [if_pos hp2, if_pos hp2]
      · rw [if_neg hp2, if_neg hp2]
        exact ih

lemma lookupKey_eraseKey_self {α : Type} (k : Nat) (l : List (Nat × α)) :
    lookupKey k (eraseKey k l) = none := by
  induction l with
  | nil => rfl
  | cons p l ih =>
    simp only [eraseKey]
    by_cases hp : p.1 = k
    · rw [if_pos hp]
      exact ih
    · rw [if_neg hp]
      simp only [lookupKey]
      rw [if_neg hp]
      exact ih

lemma lookupKey_eraseKey_ne {α : Type} (k k2 : Nat) (l : List (Nat × α))
    (h : k ≠ k2) : lookupKey k2 (eraseKey k l) = lookupKey k2 l := by
  induction l with
  | nil => rfl
  | cons p l ih =>
    simp only [eraseKey]
    by_cases hp : p.1 = k
    · rw [if_pos hp]
      simp only [lookupKey]
      have h1 : ¬ p.1 = k2 := by rw [hp]; exact h
      rw [if_neg h1]
      exact ih
    · rw [if_neg hp]
      simp only [lookupKey]
      by_cases hp2 : p.1 = k2
      · rw [if_pos hp2, if_pos hp2]
      · rw [if_neg hp2, if_neg hp2]
        exact ih

lemma lookupKey_append {α : Type} (k : Nat) (l1 l2 : List (Nat × α)) :
    lookupKey k (l1 ++ l2) =
      match lookupKey k l1 with
      | some v => some v
      | none => lookupKey k l2 := by
  induction l1 with
  | nil => rfl
  | cons p l ih =>
    simp only [List.cons_append, lookupKey]
    by_cases h : p.1 = k
    · rw [if_pos h, if_pos h]
    · rw [if_neg h, if_neg h]
      exact ih

lemma keys_modifyKey {α : Type} (k : Nat) (f : α → α) (l : List (Nat × α)) :
    (modifyKey k f l).map Prod.fst = l.map Prod.fst := by
  induction l with
  | nil => rfl
  | cons p l ih =>
    simp only [modifyKey]
    by_cases h : p.1 = k
    · rw [if_pos h]
      simp [ih]
    · rw [if_neg h]
      simp [ih]

lemma mem_keys_of_lookupKey {α : Type} {k : Nat} {v : α} {l : List (Nat × α)}
    (h : lookupKey k l = some v) : k ∈ l.map Prod.fst := by
  induction l with
  | nil => simp [lookupKey] at h
  | cons p l ih =>
    simp only [lookupKey] at h
    simp only [List.map_cons, List.mem_cons]
    by_cases hp : p.1 = k
    · exact Or.inl hp.symm
    · rw [if_neg hp] at h
      exact Or.inr (ih h)

lemma lookupKey_eq_none_of_not_mem {α : Type} {k : Nat} {l : List (Nat × α)}
    (h : k ∉ l.map Prod.fst) : lookupKey k l = none := by
  induction l with
  | nil => rfl
  | cons p l ih =>
    simp only [List.map_cons, List.mem_cons] at h
    push_neg at h
    simp only [lookupKey]
    rw [if_neg (fun hh => h.1 hh.symm)]
    exact ih h.2

/-- C7: at the failing input, the source raises `ZeroDivisionError`
instead of returning 0.  `spdT2` is the tracker after two matched frames
(two centroids `(0,0)` and `(3,4)`, 5 pixels apart); its speed computation
with `fps = 0` hits `frames_to_use / fps` before the `time_elapsed_s > 0`
guard (modelled as `none`), and with `fps = -30` and a positive cached
speed (9, from a prior call at `fps = 30`) it returns the smoothed
`0.6 * 9 = 27/5`, not 0. -/
def spdDet1 : Detection := { bbox := ⟨-5, -5, 5, 5⟩, className := "car", confidence := 9 / 10 }

/-- Second frame detection for the C7 scenario (IoU 72/224 with the first
box, above the 0.3 threshold). -/
def spdDet2 : Detection := { bbox := ⟨-4, -3, 10, 11⟩, className := "car", confidence := 9 / 10 }

/-- Tracker state for the C7 scenario: one track with centroid history
`[(0, 0), (3, 4)]` and no cached speed. -/
def spdT2 : Tracker :=
  (Tracker.update (Tracker.update (Tracker.init (3 / 10) 10) [spdDet1] 0).1 [spdDet2] 1).1

/-- C7: the claim fails on the code.  With `fps = 0` the speed computation
divides by zero (a `ZeroDivisionError`, modelled as `none`); with
`fps = -30` and a cached speed of 9 it returns `27/5`, not 0. -/
theorem calculate_speed_fps_nonpositive_bug :
    Tracker.calculate_speed spdT2 1 0 30 = none ∧
    ((Tracker.calculate_speed spdT2 1 30 30).bind
      (fun r => Tracker.calculate_speed r.2 1 (-30) 30)).map Prod.fst = some (27 / 5) ∧
    (27 / 5 : ℚ) ≠ 0 :=
  ⟨by decide, by decide, by norm_num⟩

/-- C6: `mark_violation` returns false on a nonexistent track; returns
false and changes nothing when the type was already recorded; on a new
type it returns true, adds exactly 1 to the cumulative total, increments
the per-track counter by exactly 1 and records the type; and an immediate
repeat call with the same type returns false and leaves the state
unchanged. -/
theorem mark_violation_correct (t : Tracker) (vid : Nat) (ty : String) :
    (lookupKey vid t.tracked = none → Tracker.mark_violation t vid ty = (false, t)) ∧
    (∀ v, lookupKey vid t.tracked = some v →
      (ty ∈ v.violatedTypes → Tracker.mark_violation t vid ty = (false, t)) ∧
      (ty ∉ v.violatedTypes →
        (Tracker.mark_violation t vid ty).1 = true ∧
        (Tracker.mark_violation t vid ty).2.totalViolationsCumulative
          = t.totalViolationsCumulative + 1 ∧
        (∃ v2, lookupKey vid (Tracker.mark_violation t vid ty).2.tracked = some v2 ∧
          v2.violationCount = v.violationCount + 1 ∧
          v2.violatedTypes = ty :: v.violatedTypes) ∧
        Tracker.mark_violation (Tracker.mark_violation t vid ty).2 vid ty
          = (false, (Tracker.mark_violation t vid ty).2))) := by
  constructor
  · intro h
    simp [Tracker.mark_violation, h]
  · intro v hv
    constructor
    · intro hm
      simp [Tracker.mark_violation, hv, hm]
    · intro hm
      have hlook : lookupKey vid (Tracker.mark_violation t vid ty).2.tracked
          = some { v with
                   violatedTypes := ty :: v.violatedTypes
                   violationCount := v.violationCount + 1
                   hasViolated := true } := by
        simp [Tracker.mark_violation, hv, hm, lookupKey_modifyKey_self]
      refine ⟨?_, ?_, ⟨_, hlook, rfl, rfl⟩, ?_⟩
      · simp [Tracker.mark_violation, hv, hm]
      · simp [Tracker.mark_violation, hv, hm]
      · have hmem : ty ∈ ({ v with
            violatedTypes := ty :: v.violatedTypes
            violationCount := v.violationCount + 1
            hasViolated := true } : Vehicle).violatedTypes := List.mem_cons_self ty _
        set t2 := (Tracker.mark_violation t vid ty).2 with ht2
        simp only [Tracker.mark_violation]
        rw [hlook]
        simp [hmem]

/-- Vehicle literal used by concrete witnesses: a freshly created car
track with no violations. -/
def vW : Vehicle :=
  { bbox := ⟨0, 0, 10, 10⟩
    className := "car"
    confidence := 9 / 10
    firstFrame := 0
    lastFrame := 0
    framesMissing := 0
    violationCount := 0
    licensePlate := none
    hasViolated := false
    violatedTypes := []
    centroids := [(5, 5)]
    speedKmh := 0 }

/-- Tracker holding exactly the track `vW` under ID 1. -/
def tW : Tracker :=
  { next_id := 2
    tracked := [(1, vW)]
    iou_threshold := 3 / 10
    max_missing_frames := 10
    totalViolationsCumulative := 0 }

/-- C6 witness: `mark_violation` on the concrete tracker `tW` returns
true, bumps the cumulative total to 1, records the type, and a repeat
call is a rejected no-op. -/
theorem mark_violation_correct_witness :
    lookupKey 1 tW.tracked = some vW ∧
    "Red Light Violation" ∉ vW.violatedTypes ∧
    (Tracker.mark_violation tW 1 "Red Light Violation").1 = true ∧
    (Tracker.mark_violation tW 1 "Red Light Violation").2.totalViolationsCumulative
      = tW.totalViolationsCumulative + 1 ∧
    Tracker.mark_violation (Tracker.mark_violation tW 1 "Red Light Violation").2 1
        "Red Light Violation"
      = (false, (Tracker.mark_violation tW 1 "Red Light Violation").2) :=
  ⟨by decide, by decide,
   (((mark_violation_correct tW 1 "Red Light Violation").2 vW (by decide)).2 (by decide)).1,
   (((mark_violation_correct tW 1 "Red Light Violation").2 vW (by decide)).2 (by decide)).2.1,
   (((mark_violation_correct tW 1 "Red Light Violation").2 vW (by decide)).2 (by decide)).2.2.2⟩

/-- C5: with no stop line configured the detector never fires and leaves
its state untouched; with a stop line, it fires exactly when the signal is
red, the stored side (defaulting to before) is before, and the box bottom
is strictly past the line; the stored side is overwritten with the current
side on every evaluation; consequently a track already past the line never
re-triggers while it stays past it, whatever the signal. -/
theorem check_violation_correct (rl : RedLightState) (vid : Nat) (bbox : Box)
    (signal : String) :
    (rl.stopLineY = none → checkViolation rl vid bbox signal = (false, rl)) ∧
    (∀ y, rl.stopLineY = some y →
      ((checkViolation rl vid bbox signal).1 = true ↔
        (signal = "red" ∧ (lookupKey vid rl.positions).getD Side.before = Side.before ∧
          bbox.y2 > y)) ∧
      (checkViolation rl vid bbox signal).2.positions =
        upsertKey vid (if bbox.y2 > y then Side.after else Side.before) rl.positions ∧
      (∀ bbox2 signal2, bbox.y2 > y → bbox2.y2 > y →
        (checkViolation (checkViolation rl vid bbox signal).2 vid bbox2 signal2).1
          = false)) := by
  constructor
  · intro h
    simp [checkViolation, h]
  · intro y hy
    refine ⟨?_, ?_, ?_⟩
    · simp only [checkViolation, hy]
      by_cases hb : bbox.y2 > y
      · simp [hb]
      · simp [hb]
    · simp only [checkViolation, hy]
    · intro bbox2 signal2 h1 h2
      have hcur : (if bbox.y2 > y then Side.after else Side.before) = Side.after := by
        simp [h1]
      simp only [checkViolation, hy]
      simp [lookupKey_upsertKey_self, hcur, h2]

/-- C5 witness: a concrete crossing at stop line 300 fires on the
transition frame and does not re-fire on the next frame while the vehicle
stays past the line. -/
theorem check_violation_correct_witness :
    (RedLightState.stopLineY ⟨some 300, []⟩ = some 300) ∧
    (checkViolation ⟨some 300, []⟩ 1 ⟨0, 260, 100, 400⟩ "red").1 = true ∧
    (checkViolation (checkViolation ⟨some 300, []⟩ 1 ⟨0, 260, 100, 400⟩ "red").2 1
        ⟨30, 300, 130, 440⟩ "red").1 = false :=
  ⟨rfl,
   ((check_violation_correct ⟨some 300, []⟩ 1 ⟨0, 260, 100, 400⟩ "red").2 300 rfl).1.mpr
     (by refine ⟨rfl, by decide, by decide⟩),
   ((check_violation_correct ⟨some 300, []⟩ 1 ⟨0, 260, 100, 400⟩ "red").2 300 rfl).2.2
     ⟨30, 300, 130, 440⟩ "red" (by decide) (by decide)⟩

lemma mem_of_lookupKey {α : Type} {k : Nat} {v : α} {l : List (Nat × α)}
    (h : lookupKey k l = some v) : (k, v) ∈ l := by
  induction l with
  | nil => simp [lookupKey] at h
  | cons p l ih =>
    simp only [lookupKey] at h
    by_cases hp : p.1 = k
    · rw [if_pos hp] at h
      have hv : v = p.2 := (Option.some_inj.mp h).symm
      have hpe : p = (k, v) := by
        cases p
        simp only [Prod.mk.injEq]
        exact ⟨hp, hv.symm⟩
      rw [← hpe]
      exact List.mem_cons_self p l
    · rw [if_neg hp] at h
      exact List.mem_cons_of_mem _ (ih h)

lemma lookupKey_of_mem {α : Type} {k : Nat} {v : α} {l : List (Nat × α)}
    (hnd : (l.map Prod.fst).Nodup) (h : (k, v) ∈ l) : lookupKey k l = some v := by
  induction l with
  | nil => simp at h
  | cons p l ih =>
    simp only [List.map_cons, List.nodup_cons] at hnd
    rcases List.mem_cons.mp h with he | h2
    · rw [← he]
      simp [lookupKey]
    · have hne : p.1 ≠ k := by
        intro heq
        apply hnd.1
        rw [heq]
        exact List.mem_map.mpr ⟨(k, v), h2, rfl⟩
      simp only [lookupKey]
      rw [if_neg hne]
      exact ih hnd.2 h2

lemma keysNodup_of_sorted {α : Type} {l : List (Nat × α)}
    (h : l.Pairwise (fun a b => a.1 < b.1)) : (l.map Prod.fst).Nodup :=
  List.pairwise_map.mpr (h.imp (fun hlt => Nat.ne_of_lt hlt))

lemma fbm_fold_spec (bbox : Box) (cls : String) (thr : ℚ) :
    ∀ (l : List (Nat × Vehicle)) (acc : Option Nat × ℚ),
      0 ≤ acc.2 →
      (∀ i, acc.1 = some i → ∀ p ∈ l, i < p.1) →
      l.Pairwise (fun a b => a.1 < b.1) →
      acc.2 ≤ (l.foldl (fbmStep bbox cls thr) acc).2 ∧
      (∀ p ∈ l, p.2.className = cls → thr ≤ calculate_iou bbox p.2.bbox →
        calculate_iou bbox p.2.bbox ≤ (l.foldl (fbmStep bbox cls thr) acc).2) ∧
      (l.foldl (fbmStep bbox cls thr) acc = acc ∨
        ∃ i v, (i, v) ∈ l ∧ (l.foldl (fbmStep bbox cls thr) acc).1 = some i ∧
          (l.foldl (fbmStep bbox cls thr) acc).2 = calculate_iou bbox v.bbox ∧
          v.className = cls ∧ thr ≤ calculate_iou bbox v.bbox ∧
          acc.2 < calculate_iou bbox v.bbox ∧
          (∀ p ∈ l, p.2.className = cls → thr ≤ calculate_iou bbox p.2.bbox →
            calculate_iou bbox p.2.bbox = (l.foldl (fbmStep bbox cls thr) acc).2 →
            i ≤ p.1)) := by
  intro l
  induction l with
  | nil =>
    intro acc h0 hk hs
    exact ⟨le_refl _, by simp, Or.inl rfl⟩
  | cons p l ih =>
    intro acc h0 hk hs
    rw [List.foldl_cons]
    rcases List.pairwise_cons.mp hs with ⟨hp_lt, hs2⟩
    by_cases hcls : p.2.className ≠ cls
    · have hstep : fbmStep bbox cls thr acc p = acc := by
        simp only [fbmStep]
        rw [if_pos hcls]
      rw [hstep]
      obtain ⟨m, d, o⟩ := ih acc h0
        (fun i hi q hq => hk i hi q (List.mem_cons_of_mem _ hq)) hs2
      refine ⟨m, ?_, ?_⟩
      · intro q hq hqc hqt
        rcases List.mem_cons.mp hq with he | hq2
        · subst he
          exact absurd hqc hcls
        · exact d q hq2 hqc hqt
      · rcases o with ho | ⟨i, v, hmem, h1, h2, h3, h4, h5, h6⟩
        · exact Or.inl ho
        · refine Or.inr ⟨i, v, List.mem_cons_of_mem _ hmem, h1, h2, h3, h4, h5, ?_⟩
          intro q hq hqc hqt hqe
          rcases List.mem_cons.mp hq with he | hq2
          · subst he
            exact absurd hqc hcls
          · exact h6 q hq2 hqc hqt hqe
    · push_neg at hcls
      by_cases hupd : calculate_iou bbox p.2.bbox > acc.2 ∧ calculate_iou bbox p.2.bbox ≥ thr
      · have hstep : fbmStep bbox cls thr acc p = (some p.1, calculate_iou bbox p.2.bbox) := by
          simp only [fbmStep]
          rw [if_neg (not_not_intro hcls)]
          exact if_pos hupd
        rw [hstep]
        have h02 : (0 : ℚ) ≤ (some p.1, calculate_iou bbox p.2.bbox).2 :=
          le_trans h0 (le_of_lt hupd.1)
        have hk2 : ∀ i, (some p.1, calculate_iou bbox p.2.bbox).1 = some i →
            ∀ q ∈ l, i < q.1 := by
          intro i hi q hq
          have hpi : p.1 = i := Option.some_inj.mp hi
          rw [← hpi]
          exact hp_lt q hq
        obtain ⟨m, d, o⟩ := ih (some p.1, calculate_iou bbox p.2.bbox) h02 hk2 hs2
        refine ⟨le_trans (le_of_lt hupd.1) m, ?_, ?_⟩
        · intro q hq hqc hqt
          rcases List.mem_cons.mp hq with he | hq2
          · subst he
            exact m
          · exact d q hq2 hqc hqt
        · rcases o with ho | ⟨i, v, hmem, h1, h2, h3, h4, h5, h6⟩
          · refine Or.inr ⟨p.1, p.2, List.mem_cons_self p l, ?_, ?_, hcls, hupd.2, hupd.1, ?_⟩
            · rw [ho]
            · rw [ho]
            · intro q hq hqc hqt hqe
              rcases List.mem_cons.mp hq with he | hq2
              · subst he
                exact le_refl _
              · exact le_of_lt (hp_lt q hq2)
          · refine Or.inr ⟨i, v, List.mem_cons_of_mem _ hmem, h1, h2, h3, h4,
              lt_trans hupd.1 h5, ?_⟩
            intro q hq hqc hqt hqe
            rcases List.mem_cons.mp hq with he | hq2
            · exfalso
              subst he
              rw [h2] at hqe
              exact absurd (hqe ▸ h5) (lt_irrefl _)
            · exact h6 q hq2 hqc hqt hqe
      · have hstep : fbmStep bbox cls thr acc p = acc := by
          simp only [fbmStep]
          rw [if_neg (not_not_intro hcls)]
          exact if_neg hupd
        rw [hstep]
        obtain ⟨m, d, o⟩ := ih acc h0
          (fun i hi q hq => hk i hi q (List.mem_cons_of_mem _ hq)) hs2
        have hple : p.2.className = cls → thr ≤ calculate_iou bbox p.2.bbox →
            calculate_iou bbox p.2.bbox ≤ acc.2 := by
          intro hcq hthr
          by_contra hgt
          push_neg at hgt
          exact hupd ⟨hgt, hthr⟩
        refine ⟨m, ?_, ?_⟩
        · intro q hq hqc hqt
          rcases List.mem_cons.mp hq with he | hq2
          · subst he
            exact le_trans (hple hqc hqt) m
          · exact d q hq2 hqc hqt
        · rcases o with ho | ⟨i, v, hmem, h1, h2, h3, h4, h5, h6⟩
          · exact Or.inl ho
          · refine Or.inr ⟨i, v, List.mem_cons_of_mem _ hmem, h1, h2, h3, h4, h5, ?_⟩
            intro q hq hqc hqt hqe
            rcases List.mem_cons.mp hq with he | hq2
            · exfalso
              subst he
              have hle : calculate_iou bbox q.2.bbox ≤ acc.2 := hple hqc hqt
              rw [hqe, h2] at hle
              exact absurd (lt_of_lt_of_le h5 hle) (lt_irrefl _)
            · exact h6 q hq2 hqc hqt hqe

/-- C3 counterexample: the tracker has exactly one track (ID 1), yet a
single `update` call with two identical detections matches BOTH of them to
that track, returning ID 1 twice — the source never excludes an
already-matched track from later detections of the same call, refuting
"each existing track is matched to at most one detection". -/
theorem update_double_match_counterexample :
    ((Tracker.update
        (Tracker.update (Tracker.init (3 / 10) 10) [⟨⟨0, 0, 10, 10⟩, "car", 9 / 10⟩] 0).1
        [⟨⟨0, 0, 10, 10⟩, "car", 9 / 10⟩, ⟨⟨0, 0, 10, 10⟩, "car", 9 / 10⟩] 1).2.map
      (fun v => v.id)) = [1, 1] ∧
    ((Tracker.update
        (Tracker.update (Tracker.init (3 / 10) 10) [⟨⟨0, 0, 10, 10⟩, "car", 9 / 10⟩] 0).1
        [⟨⟨0, 0, 10, 10⟩, "car", 9 / 10⟩, ⟨⟨0, 0, 10, 10⟩, "car", 9 / 10⟩] 1).1.tracked.map
      Prod.fst) = [1] := by
  constructor
  · decide
  · decide

/-- C3 (amended): each detection is matched to at most one track, and the
chosen track is the same-class track with the highest IoU that is strictly
above 0 and at or above the threshold — against the tracker state at the
moment the detection is processed, with no exclusion of tracks already
matched earlier in the call — ties broken by lowest track ID (the track
map is kept in ascending-ID insertion order). -/
theorem findBestMatch_greedy (tracks : List (Nat × Vehicle)) (bbox : Box)
    (cls : String) (thr : ℚ)
    (hsort : tracks.Pairwise (fun a b => a.1 < b.1)) (i : Nat)
    (hres : findBestMatch tracks bbox cls thr = some i) :
    ∃ v, lookupKey i tracks = some v ∧ v.className = cls ∧
      0 < calculate_iou bbox v.bbox ∧ thr ≤ calculate_iou bbox v.bbox ∧
      ∀ j w, lookupKey j tracks = some w → w.className = cls →
        thr ≤ calculate_iou bbox w.bbox →
        (calculate_iou bbox w.bbox ≤ calculate_iou bbox v.bbox ∧
          (calculate_iou bbox w.bbox = calculate_iou bbox v.bbox → i ≤ j)) := by
  obtain ⟨m, d, o⟩ := fbm_fold_spec bbox cls thr tracks (none, 0) (le_refl 0)
    (by intro i2 hi2; cases hi2) hsort
  unfold findBestMatch at hres
  rcases o with ho | ⟨i2, v, hmem, h1, h2, h3, h4, h5, h6⟩
  · rw [ho] at hres
    cases hres
  · have hii : i2 = i := Option.some_inj.mp (h1 ▸ hres)
    subst hii
    refine ⟨v, lookupKey_of_mem (keysNodup_of_sorted hsort) hmem, h3, h5, h4, ?_⟩
    intro j w hjw hwc hwt
    have hjmem : (j, w) ∈ tracks := mem_of_lookupKey hjw
    constructor
    · have := d (j, w) hjmem hwc hwt
      rw [h2] at this
      exact this
    · intro heq
      refine h6 (j, w) hjmem hwc hwt ?_
      rw [h2]
      exact heq

/-- Track map with a two-way IoU tie used as the C3 witness: two identical
car tracks under IDs 1 and 2. -/
def fbmTracksW : List (Nat × Vehicle) := [(1, vW), (2, vW)]

/-- C3 witness: on the tie `fbmTracksW` (both tracks reach IoU 1), the
greedy match picks the lowest ID, 1, and the characterization applies. -/
theorem findBestMatch_greedy_witness :
    fbmTracksW.Pairwise (fun a b => a.1 < b.1) ∧
    findBestMatch fbmTracksW ⟨0, 0, 10, 10⟩ "car" (3 / 10) = some 1 ∧
    (∃ v, lookupKey 1 fbmTracksW = some v ∧ v.className = "car" ∧
      0 < calculate_iou ⟨0, 0, 10, 10⟩ v.bbox ∧
      (3 / 10 : ℚ) ≤ calculate_iou ⟨0, 0, 10, 10⟩ v.bbox ∧
      ∀ j w, lookupKey j fbmTracksW = some w → w.className = "car" →
        (3 / 10 : ℚ) ≤ calculate_iou ⟨0, 0, 10, 10⟩ w.bbox →
        (calculate_iou ⟨0, 0, 10, 10⟩ w.bbox ≤ calculate_iou ⟨0, 0, 10, 10⟩ v.bbox ∧
          (calculate_iou ⟨0, 0, 10, 10⟩ w.bbox = calculate_iou ⟨0, 0, 10, 10⟩ v.bbox →
            1 ≤ j))) :=
  ⟨by decide, by decide,
   findBestMatch_greedy fbmTracksW ⟨0, 0, 10, 10⟩ "car" (3 / 10) (by decide) 1 (by decide)⟩

/-- Well-formedness of a tracker state: the track map is in strictly
ascending ID order (Python dicts preserve insertion order and IDs are
allocated increasingly) and every live ID is below `next_id`. -/
def TrackerWF (t : Tracker) : Prop :=
  (t.tracked.map Prod.fst).Pairwise (· < ·) ∧
  ∀ k ∈ t.tracked.map Prod.fst, k < t.next_id

lemma lookupKey_mapVal {α : Type} (g : α → α) (k : Nat) (l : List (Nat × α)) :
    lookupKey k (l.map (fun p => (p.1, g p.2))) = (lookupKey k l).map g := by
  induction l with
  | nil => rfl
  | cons p l ih =>
    simp only [List.map_cons, lookupKey]
    by_cases h : p.1 = k
    · rw [if_pos h, if_pos h]
      rfl
    · rw [if_neg h, if_neg h]
      exact ih

lemma keys_mapVal {α : Type} (g : α → α) (l : List (Nat × α)) :
    (l.map (fun p => (p.1, g p.2))).map Prod.fst = l.map Prod.fst := by
  induction l with
  | nil => rfl
  | cons p l ih => simp [ih]

lemma lookupKey_none_not_mem {α : Type} {k : Nat} {l : List (Nat × α)}
    (h : lookupKey k l = none) : k ∉ l.map Prod.fst := by
  intro hmem
  induction l with
  | nil => simp at hmem
  | cons p l ih =>
    simp only [lookupKey] at h
    by_cases hp : p.1 = k
    · rw [if_pos hp] at h
      cases h
    · rw [if_neg hp] at h
      simp only [List.map_cons, List.mem_cons] at hmem
      rcases hmem with he | hm2
      · exact hp he.symm
      · exact ih h hm2

lemma lookupKey_filter {α : Type} (q : Nat × α → Bool) {l : List (Nat × α)}
    (hnd : (l.map Prod.fst).Nodup) (k : Nat) :
    lookupKey k (l.filter q) =
      (lookupKey k l).bind (fun v => if q (k, v) then some v else none) := by
  induction l with
  | nil => rfl
  | cons p l ih =>
    simp only [List.map_cons, List.nodup_cons] at hnd
    simp only [List.filter_cons, lookupKey]
    by_cases hp : p.1 = k
    · have hknil : lookupKey k l = none := by
        apply lookupKey_eq_none_of_not_mem
        rw [← hp]
        exact hnd.1
      by_cases hq : q p
      · rw [if_pos hq]
        simp only [lookupKey]
        rw [if_pos hp]
        have hpe : p = (k, p.2) := by
          rw [← hp]
        rw [if_pos hp]
        rw [hpe] at hq
        simp [hq]
      · rw [if_neg hq]
        rw [if_pos hp]
        have hpe : p = (k, p.2) := by
          rw [← hp]
        rw [hpe] at hq
        simp only [Option.bind_eq_bind, Option.some_bind]
        rw [if_neg (by simpa using hq)]
        rw [ih hnd.2, hknil]
        rfl
    · by_cases hq : q p
      · rw [if_pos hq]
        simp only [lookupKey]
        rw [if_neg hp, if_neg hp]
        exact ih hnd.2
      · rw [if_neg hq, if_neg hp]
        exact ih hnd.2

lemma fbm_fold_some_mem (bbox : Box) (cls : String) (thr : ℚ) :
    ∀ (l : List (Nat × Vehicle)) (acc : Option Nat × ℚ) (j : Nat),
      (l.foldl (fbmStep bbox cls thr) acc).1 = some j →
      acc.1 = some j ∨ ∃ w, (j, w) ∈ l ∧ w.className = cls := by
  intro l
  induction l with
  | nil =>
    intro acc j h
    exact Or.inl h
  | cons p l ih =>
    intro acc j h
    rw [List.foldl_cons] at h
    by_cases hcls : p.2.className ≠ cls
    · rw [show fbmStep bbox cls thr acc p = acc by simp only [fbmStep]; rw [if_pos hcls]] at h
      rcases ih acc j h with ha | ⟨w, hw, hwc⟩
      · exact Or.inl ha
      · exact Or.inr ⟨w, List.mem_cons_of_mem _ hw, hwc⟩
    · push_neg at hcls
      by_cases hupd : calculate_iou bbox p.2.bbox > acc.2 ∧ calculate_iou bbox p.2.bbox ≥ thr
      · rw [show fbmStep bbox cls thr acc p = (some p.1, calculate_iou bbox p.2.bbox) by
          simp only [fbmStep]; rw [if_neg (not_not_intro hcls)]; exact if_pos hupd] at h
        rcases ih _ j h with ha | ⟨w, hw, hwc⟩
        · have hj : p.1 = j := Option.some_inj.mp ha
          refine Or.inr ⟨p.2, ?_, hcls⟩
          rw [← hj]
          exact List.mem_cons_self p l
        · exact Or.inr ⟨w, List.mem_cons_of_mem _ hw, hwc⟩
      · rw [show fbmStep bbox cls thr acc p = acc by
          simp only [fbmStep]; rw [if_neg (not_not_intro hcls)]; exact if_neg hupd] at h
        rcases ih acc j h with ha | ⟨w, hw, hwc⟩
        · exact Or.inl ha
        · exact Or.inr ⟨w, List.mem_cons_of_mem _ hw, hwc⟩

lemma findBestMatch_some_mem {tracks : List (Nat × Vehicle)} {bbox : Box}
    {cls : String} {thr : ℚ} {j : Nat}
    (h : findBestMatch tracks bbox cls thr = some j) :
    ∃ w, (j, w) ∈ tracks ∧ w.className = cls := by
  unfold findBestMatch at h
  rcases fbm_fold_some_mem bbox cls thr tracks (none, 0) j h with ha | hb
  · cases ha
  · exact hb

lemma stepDet_props (thr : ℚ) (f : Nat) (acc : Tracker × List TrackView)
    (det : Detection) (hwf : TrackerWF acc.1) :
    TrackerWF (stepDet thr f acc det).1 ∧
    acc.1.next_id ≤ (stepDet thr f acc det).1.next_id ∧
    (stepDet thr f acc det).1.max_missing_frames = acc.1.max_missing_frames ∧
    (stepDet thr f acc det).1.iou_threshold = acc.1.iou_threshold := by
  rcases hm : findBestMatch acc.1.tracked det.bbox det.className thr with _ | vid
  · simp only [stepDet, hm]
    refine ⟨⟨?_, ?_⟩, ?_, by trivial, by trivial⟩
    · simp only [List.map_append, List.map_cons, List.map_nil]
      rw [List.pairwise_append]
      refine ⟨hwf.1, List.pairwise_singleton _ _, ?_⟩
      intro a ha b hb
      simp only [List.mem_singleton] at hb
      rw [hb]
      exact hwf.2 a ha
    · intro k hk
      simp only [List.map_append, List.map_cons, List.map_nil, List.mem_append,
        List.mem_singleton] at hk
      rcases hk with hk | hk
      · exact Nat.lt_succ_of_lt (hwf.2 k hk)
      · rw [hk]
        exact Nat.lt_succ_self _
    · exact Nat.le_succ _
  · rcases hl : lookupKey vid acc.1.tracked with _ | v0
    · simp only [stepDet, hm, hl]
      exact ⟨hwf, le_refl _, by trivial, by trivial⟩
    · simp only [stepDet, hm, hl]
      refine ⟨⟨?_, ?_⟩, le_refl _, by trivial, by trivial⟩
      · rw [keys_modifyKey]
        exact hwf.1
      · intro k hk
        rw [keys_modifyKey] at hk
        exact hwf.2 k hk

lemma foldl_stepDet_props (thr : ℚ) (f : Nat) :
    ∀ (dets : List Detection) (acc : Tracker × List TrackView),
      TrackerWF acc.1 →
      TrackerWF (dets.foldl (stepDet thr f) acc).1 ∧
      acc.1.next_id ≤ (dets.foldl (stepDet thr f) acc).1.next_id ∧
      (dets.foldl (stepDet thr f) acc).1.max_missing_frames = acc.1.max_missing_frames ∧
      (dets.foldl (stepDet thr f) acc).1.iou_threshold = acc.1.iou_threshold := by
  intro dets
  induction dets with
  | nil =>
    intro acc hwf
    exact ⟨hwf, le_refl _, rfl, rfl⟩
  | cons d ds ih =>
    intro acc hwf
    rw [List.foldl_cons]
    obtain ⟨w1, w2, w3, w4⟩ := stepDet_props thr f acc d hwf
    obtain ⟨i1, i2, i3, i4⟩ := ih (stepDet thr f acc d) w1
    exact ⟨i1, le_trans w2 i2, by rw [i3, w3], by rw [i4, w4]⟩

lemma foldl_stepDet_keeps (thr : ℚ) (f : Nat) :
    ∀ (dets : List Detection) (acc : Tracker × List TrackView) (vid : Nat) (v : Vehicle),
      TrackerWF acc.1 →
      lookupKey vid acc.1.tracked = some v →
      (∀ d ∈ dets, d.className ≠ v.className) →
      lookupKey vid (dets.foldl (stepDet thr f) acc).1.tracked = some v := by
  intro dets
  induction dets with
  | nil =>
    intro acc vid v hwf hlv hcls
    exact hlv
  | cons d ds ih =>
    intro acc vid v hwf hlv hcls
    rw [List.foldl_cons]
    have hwf2 := (stepDet_props thr f acc d hwf).1
    have hkeep : lookupKey vid (stepDet thr f acc d).1.tracked = some v := by
      rcases hm : findBestMatch acc.1.tracked d.bbox d.className thr with _ | j
      · simp only [stepDet, hm]
        rw [lookupKey_append, hlv]
      · rcases hl : lookupKey j acc.1.tracked with _ | v0
        · simp only [stepDet, hm, hl]
          exact hlv
        · have hj : j ≠ vid := by
            intro he
            obtain ⟨w, hwmem, hwc⟩ := findBestMatch_some_mem hm
            have hnd : (acc.1.tracked.map Prod.fst).Nodup :=
              List.Pairwise.imp (fun hlt => Nat.ne_of_lt hlt) hwf.1
            have hlw : lookupKey j acc.1.tracked = some w := lookupKey_of_mem hnd hwmem
            rw [he, hlv] at hlw
            have hvw : v = w := Option.some_inj.mp hlw
            exact hcls d (List.mem_cons_self d ds) (by rw [← hwc, hvw])
          simp only [stepDet, hm, hl]
          rw [lookupKey_modifyKey_ne j vid _ _ hj]
          exact hlv
    exact ih (stepDet thr f acc d) vid v hwf2 hkeep
      (fun d2 hd2 => hcls d2 (List.mem_cons_of_mem _ hd2))

instance (t : Tracker) : Decidable (TrackerWF t) := by
  unfold TrackerWF
  infer_instance

lemma foldl_stepDet_absent (thr : ℚ) (f : Nat) :
    ∀ (dets : List Detection) (acc : Tracker × List TrackView) (vid : Nat),
      TrackerWF acc.1 → vid < acc.1.next_id →
      lookupKey vid acc.1.tracked = none →
      lookupKey vid (dets.foldl (stepDet thr f) acc).1.tracked = none := by
  intro dets
  induction dets with
  | nil =>
    intro acc vid hwf hb ha
    exact ha
  | cons d ds ih =>
    intro acc vid hwf hb ha
    rw [List.foldl_cons]
    have habs2 : lookupKey vid (stepDet thr f acc d).1.tracked = none := by
      rcases hm : findBestMatch acc.1.tracked d.bbox d.className thr with _ | j
      · simp only [stepDet, hm]
        rw [lookupKey_append, ha]
        simp only [lookupKey]
        rw [if_neg (Nat.ne_of_gt hb)]
      · rcases hl : lookupKey j acc.1.tracked with _ | v0
        · simp only [stepDet, hm, hl]
          exact ha
        · have hj : j ≠ vid := by
            intro he
            obtain ⟨w, hwmem, hwc⟩ := findBestMatch_some_mem hm
            have : vid ∈ acc.1.tracked.map Prod.fst := by
              rw [← he]
              exact List.mem_map.mpr ⟨(j, w), hwmem, rfl⟩
            exact lookupKey_none_not_mem ha this
          simp only [stepDet, hm, hl]
          rw [lookupKey_modifyKey_ne j vid _ _ hj]
          exact ha
    exact ih (stepDet thr f acc d) vid (stepDet_props thr f acc d hwf).1
      (lt_of_lt_of_le hb (stepDet_props thr f acc d hwf).2.1) habs2

lemma keys_filter_subset {α : Type} (q : Nat × α → Bool) (l : List (Nat × α)) :
    ∀ k ∈ (l.filter q).map Prod.fst, k ∈ l.map Prod.fst := by
  intro k hk
  rcases List.mem_map.mp hk with ⟨p, hp, hfst⟩
  exact List.mem_map.mpr ⟨p, List.mem_of_mem_filter hp, hfst⟩

lemma trackerWF_filter (t2 : Tracker) (q : Nat × Vehicle → Bool) (hwf : TrackerWF t2) :
    TrackerWF { t2 with tracked := t2.tracked.filter q } := by
  constructor
  · exact List.Pairwise.sublist
      (List.Sublist.map Prod.fst (List.filter_sublist t2.tracked)) hwf.1
  · intro k hk
    exact hwf.2 k (keys_filter_subset q t2.tracked k hk)

lemma ageTracker_wf (t : Tracker) (hwf : TrackerWF t) : TrackerWF (ageTracker t) := by
  constructor
  · show (((t.tracked.map (fun p => (p.1, ageVehicle p.2)))).map Prod.fst).Pairwise (· < ·)
    rw [keys_mapVal]
    exact hwf.1
  · intro k hk
    show k < t.next_id
    apply hwf.2 k
    rw [← keys_mapVal ageVehicle]
    exact hk

lemma lookupKey_ageTracker (t : Tracker) (vid : Nat) :
    lookupKey vid (ageTracker t).tracked = (lookupKey vid t.tracked).map ageVehicle := by
  unfold ageTracker
  exact lookupKey_mapVal ageVehicle vid t.tracked

lemma update_unmatched (t : Tracker) (vid : Nat) (v : Vehicle)
    (dets : List Detection) (fr : Nat)
    (hwf : TrackerWF t) (hlv : lookupKey vid t.tracked = some v)
    (hcls : ∀ d ∈ dets, d.className ≠ v.className) :
    TrackerWF (Tracker.update t dets fr).1 ∧
    t.next_id ≤ (Tracker.update t dets fr).1.next_id ∧
    (Tracker.update t dets fr).1.max_missing_frames = t.max_missing_frames ∧
    (Tracker.update t dets fr).1.iou_threshold = t.iou_threshold ∧
    lookupKey vid (Tracker.update t dets fr).1.tracked =
      (if v.framesMissing + 1 > t.max_missing_frames then none
       else some (ageVehicle v)) := by
  have hwfA : TrackerWF (ageTracker t) := ageTracker_wf t hwf
  have hlvA : lookupKey vid (ageTracker t).tracked = some (ageVehicle v) := by
    rw [lookupKey_ageTracker, hlv]
    rfl
  obtain ⟨hwfF, hnF, hmF, htF⟩ :=
    foldl_stepDet_props t.iou_threshold fr dets (ageTracker t, []) hwfA
  have hkF := foldl_stepDet_keeps t.iou_threshold fr dets (ageTracker t, [])
    vid (ageVehicle v) hwfA hlvA (by intro d hd; rw [show (ageVehicle v).className = v.className from rfl]; exact hcls d hd)
  have hndF : ((dets.foldl (stepDet t.iou_threshold fr)
      (ageTracker t, [])).1.tracked.map Prod.fst).Nodup :=
    List.Pairwise.imp (fun hlt => Nat.ne_of_lt hlt) hwfF.1
  refine ⟨trackerWF_filter _ _ hwfF, hnF, hmF, htF, ?_⟩
  show lookupKey vid
      ((dets.foldl (stepDet t.iou_threshold fr) (ageTracker t, [])).1.tracked.filter
        (fun p => decide (¬ p.2.framesMissing > t.max_missing_frames))) = _
  rw [lookupKey_filter _ hndF, hkF]
  have hfm : (ageVehicle v).framesMissing = v.framesMissing + 1 := rfl
  by_cases hmiss : v.framesMissing + 1 > t.max_missing_frames
  · rw [if_pos hmiss]
    simp [hfm, hmiss]
  · rw [if_neg hmiss]
    simp [hfm, hmiss]

lemma update_absent (t : Tracker) (vid : Nat) (dets : List Detection) (fr : Nat)
    (hwf : TrackerWF t) (hb : vid < t.next_id)
    (ha : lookupKey vid t.tracked = none) :
    TrackerWF (Tracker.update t dets fr).1 ∧
    vid < (Tracker.update t dets fr).1.next_id ∧
    (Tracker.update t dets fr).1.max_missing_frames = t.max_missing_frames ∧
    lookupKey vid (Tracker.update t dets fr).1.tracked = none := by
  have hwfA : TrackerWF (ageTracker t) := ageTracker_wf t hwf
  have haA : lookupKey vid (ageTracker t).tracked = none := by
    rw [lookupKey_ageTracker, ha]
    rfl
  obtain ⟨hwfF, hnF, hmF, htF⟩ :=
    foldl_stepDet_props t.iou_threshold fr dets (ageTracker t, []) hwfA
  have haF := foldl_stepDet_absent t.iou_threshold fr dets (ageTracker t, []) vid hwfA hb haA
  refine ⟨trackerWF_filter _ _ hwfF, lt_of_lt_of_le hb hnF, hmF, ?_⟩
  show lookupKey vid
      ((dets.foldl (stepDet t.iou_threshold fr) (ageTracker t, [])).1.tracked.filter
        (fun p => decide (¬ p.2.framesMissing > t.max_missing_frames))) = _
  apply lookupKey_eq_none_of_not_mem
  intro hmem
  exact lookupKey_none_not_mem haF (keys_filter_subset _ _ vid hmem)

/-- Iterate `Tracker.update` over a list of per-frame inputs (detections
and frame index). -/
def runUpdates (t : Tracker) (frames : List (List Detection × Nat)) : Tracker :=
  frames.foldl (fun s f => (Tracker.update s f.1 f.2).1) t

lemma runUpdates_retained :
    ∀ (frames : List (List Detection × Nat)) (t : Tracker) (vid : Nat) (v : Vehicle),
      TrackerWF t → lookupKey vid t.tracked = some v →
      (∀ f ∈ frames, ∀ d ∈ f.1, d.className ≠ v.className) →
      v.framesMissing + frames.length ≤ t.max_missing_frames →
      TrackerWF (runUpdates t frames) ∧
      t.next_id ≤ (runUpdates t frames).next_id ∧
      (runUpdates t frames).max_missing_frames = t.max_missing_frames ∧
      ∃ v2, lookupKey vid (runUpdates t frames).tracked = some v2 ∧
        v2.framesMissing = v.framesMissing + frames.length ∧
        v2.className = v.className := by
  intro frames
  induction frames with
  | nil =>
    intro t vid v hwf hlv hcls hlen
    exact ⟨hwf, le_refl _, rfl, v, hlv, by simp, rfl⟩
  | cons f fs ih =>
    intro t vid v hwf hlv hcls hlen
    simp only [List.length_cons] at hlen
    have hstep : runUpdates t (f :: fs) = runUpdates (Tracker.update t f.1 f.2).1 fs := by
      unfold runUpdates
      rw [List.foldl_cons]
    rw [hstep]
    simp only [List.length_cons]
    have hnot : ¬ v.framesMissing + 1 > t.max_missing_frames := by omega
    obtain ⟨hwf2, hn2, hm2, ht2, hl2⟩ := update_unmatched t vid v f.1 f.2 hwf hlv
      (fun d hd => hcls f (List.mem_cons_self f fs) d hd)
    rw [if_neg hnot] at hl2
    have hcls2 : ∀ g ∈ fs, ∀ d ∈ g.1, d.className ≠ (ageVehicle v).className :=
      fun g hg d hd => hcls g (List.mem_cons_of_mem _ hg) d hd
    have hlen2 : (ageVehicle v).framesMissing + fs.length
        ≤ (Tracker.update t f.1 f.2).1.max_missing_frames := by
      rw [hm2]
      have : (ageVehicle v).framesMissing = v.framesMissing + 1 := rfl
      omega
    obtain ⟨iwf, inext, imm, v2, ilook, ifm, icls⟩ :=
      ih (Tracker.update t f.1 f.2).1 vid (ageVehicle v) hwf2 hl2 hcls2 hlen2
    refine ⟨iwf, le_trans hn2 inext, by rw [imm, hm2], v2, ilook, ?_, icls⟩
    have : (ageVehicle v).framesMissing = v.framesMissing + 1 := rfl
    omega

lemma runUpdates_absent :
    ∀ (frames : List (List Detection × Nat)) (t : Tracker) (vid : Nat),
      TrackerWF t → vid < t.next_id → lookupKey vid t.tracked = none →
      TrackerWF (runUpdates t frames) ∧ vid < (runUpdates t frames).next_id ∧
      lookupKey vid (runUpdates t frames).tracked = none := by
  intro frames
  induction frames with
  | nil =>
    intro t vid hwf hb ha
    exact ⟨hwf, hb, ha⟩
  | cons f fs ih =>
    intro t vid hwf hb ha
    have hstep : runUpdates t (f :: fs) = runUpdates (Tracker.update t f.1 f.2).1 fs := by
      unfold runUpdates
      rw [List.foldl_cons]
    rw [hstep]
    obtain ⟨hwf2, hb2, hm2, ha2⟩ := update_absent t vid f.1 f.2 hwf hb ha
    exact ih (Tracker.update t f.1 f.2).1 vid hwf2 hb2 ha2

/-- C9: a live track with missing counter 0 that goes unmatched (no
detection of its class arrives) survives `n ≤ max_missing_frames`
consecutive updates with its missing counter equal to `n`; after exactly
`max_missing_frames + 1` such updates it is removed by that update call,
and no later sequence of updates ever brings the ID back. -/
theorem track_expiry (t : Tracker) (hwf : TrackerWF t) (vid : Nat) (v : Vehicle)
    (hlv : lookupKey vid t.tracked = some v) (h0 : v.framesMissing = 0)
    (frames : List (List Detection × Nat))
    (hcls : ∀ f ∈ frames, ∀ d ∈ f.1, d.className ≠ v.className) :
    (frames.length ≤ t.max_missing_frames →
      ∃ v2, lookupKey vid (runUpdates t frames).tracked = some v2 ∧
        v2.framesMissing = frames.length) ∧
    (frames.length = t.max_missing_frames + 1 →
      lookupKey vid (runUpdates t frames).tracked = none ∧
      ∀ frames2, lookupKey vid (runUpdates (runUpdates t frames) frames2).tracked = none) := by
  constructor
  · intro hlen
    obtain ⟨_, _, _, v2, hlook, hfm, _⟩ := runUpdates_retained frames t vid v hwf hlv hcls
      (by omega)
    exact ⟨v2, hlook, by omega⟩
  · intro hlen
    rcases List.eq_nil_or_concat frames with hnil | ⟨l2, x, hfr⟩
    · rw [hnil] at hlen
      simp at hlen
    · subst hfr
      have hl2len : l2.length = t.max_missing_frames := by
        rw [List.concat_eq_append, List.length_append] at hlen
        simp at hlen
        omega
      obtain ⟨wf1, hn1, hm1, v2, hlook1, hfm1, hcls1⟩ :=
        runUpdates_retained l2 t vid v hwf hlv
          (fun g hg d hd => hcls g (by rw [List.concat_eq_append]; exact List.mem_append_left _ hg) d hd)
          (by omega)
      have hrun : runUpdates t (l2.concat x) = (Tracker.update (runUpdates t l2) x.1 x.2).1 := by
        unfold runUpdates
        rw [List.concat_eq_append, List.foldl_append]
        rfl
      obtain ⟨wf2, hn2, hm2, ht2, hl2⟩ := update_unmatched (runUpdates t l2) vid v2 x.1 x.2
        wf1 hlook1
        (fun d hd => by
          rw [hcls1]
          exact hcls x (by rw [List.concat_eq_append]; exact List.mem_append_right _ (List.mem_singleton_self x)) d hd)
      have hgt : v2.framesMissing + 1 > (runUpdates t l2).max_missing_frames := by
        rw [hm1]
        omega
      rw [if_pos hgt] at hl2
      have habs : lookupKey vid (runUpdates t (l2.concat x)).tracked = none := by
        rw [hrun]
        exact hl2
      refine ⟨habs, ?_⟩
      intro frames2
      have hb : vid < (runUpdates t (l2.concat x)).next_id := by
        rw [hrun]
        apply lt_of_lt_of_le _ hn2
        apply lt_of_lt_of_le _ hn1
        exact hwf.2 vid (mem_keys_of_lookupKey hlv)
      have hwfL : TrackerWF (runUpdates t (l2.concat x)) := by
        rw [hrun]
        exact wf2
      exact (runUpdates_absent frames2 (runUpdates t (l2.concat x)) vid hwfL hb habs).2.2

/-- C9 witness: on the concrete one-track tracker `tW`
(`max_missing_frames = 10`), 10 empty updates retain track 1 with missing
counter 10, and an 11th empty update removes it. -/
theorem track_expiry_witness :
    TrackerWF tW ∧ lookupKey 1 tW.tracked = some vW ∧ vW.framesMissing = 0 ∧
    tW.max_missing_frames = 10 ∧
    (∃ v2, lookupKey 1 (runUpdates tW (List.replicate 10 (([] : List Detection), 0))).tracked
        = some v2 ∧ v2.framesMissing = 10) ∧
    lookupKey 1 (runUpdates tW (List.replicate 11 (([] : List Detection), 0))).tracked
      = none :=
  ⟨by decide, by decide, by decide, by decide,
   by
     have h := (track_expiry tW (by decide) 1 vW (by decide) (by decide)
       (List.replicate 10 (([] : List Detection), 0)) (by decide)).1 (by decide)
     simpa using h,
   ((track_expiry tW (by decide) 1 vW (by decide) (by decide)
       (List.replicate 11 (([] : List Detection), 0)) (by decide)).2 (by decide)).1⟩

/-- States of a `VehicleTracker` reachable by any interleaving of the four
public operations (a failed speed computation raises and yields no new
state, so only successful results generate states). -/
inductive TrackerReach (thr : ℚ) (mmf : Nat) : Tracker → Prop where
  | init : TrackerReach thr mmf (Tracker.init thr mmf)
  | step_update (t : Tracker) (dets : List Detection) (f : Nat) :
      TrackerReach thr mmf t → TrackerReach thr mmf (Tracker.update t dets f).1
  | step_speed (t t2 : Tracker) (vid : Nat) (fps ppm spd : ℚ) :
      TrackerReach thr mmf t →
      Tracker.calculate_speed t vid fps ppm = some (spd, t2) →
      TrackerReach thr mmf t2
  | step_mark (t : Tracker) (vid : Nat) (ty : String) :
      TrackerReach thr mmf t → TrackerReach thr mmf (Tracker.mark_violation t vid ty).2
  | step_plate (t : Tracker) (vid : Nat) (plate : String) :
      TrackerReach thr mmf t → TrackerReach thr mmf (Tracker.update_license_plate t vid plate)

/-- Per-track counter consistency: the violation counter always equals the
number of (distinct, duplicate-free) recorded violation types. -/
def CountInv (t : Tracker) : Prop :=
  ∀ p ∈ t.tracked, p.2.violationCount = p.2.violatedTypes.length ∧ p.2.violatedTypes.Nodup

lemma mem_modifyKey {α : Type} {k : Nat} {f : α → α} {l : List (Nat × α)}
    {p2 : Nat × α} (h : p2 ∈ modifyKey k f l) :
    p2 ∈ l ∨ ∃ v0, (k, v0) ∈ l ∧ p2 = (k, f v0) := by
  induction l with
  | nil => simp [modifyKey] at h
  | cons p l ih =>
    simp only [modifyKey] at h
    by_cases hp : p.1 = k
    · rw [if_pos hp] at h
      rcases List.mem_cons.mp h with he | h2
      · right
        refine ⟨p.2, ?_, ?_⟩
        · have : p = (k, p.2) := by rw [← hp]
          rw [← this]
          exact List.mem_cons_self p l
        · rw [he, hp]
      · rcases ih h2 with hin | ⟨v0, hv0, he⟩
        · exact Or.inl (List.mem_cons_of_mem _ hin)
        · exact Or.inr ⟨v0, List.mem_cons_of_mem _ hv0, he⟩
    · rw [if_neg hp] at h
      rcases List.mem_cons.mp h with he | h2
      · left
        rw [he]
        exact List.mem_cons_self p l
      · rcases ih h2 with hin | ⟨v0, hv0, he⟩
        · exact Or.inl (List.mem_cons_of_mem _ hin)
        · exact Or.inr ⟨v0, List.mem_cons_of_mem _ hv0, he⟩

lemma stepDet_countInv (thr : ℚ) (f : Nat) (acc : Tracker × List TrackView)
    (det : Detection) (hinv : CountInv acc.1) : CountInv (stepDet thr f acc det).1 := by
  rcases hm : findBestMatch acc.1.tracked det.bbox det.className thr with _ | vid
  · simp only [stepDet, hm]
    intro p hp
    rcases List.mem_append.mp hp with hin | hnew
    · exact hinv p hin
    · simp only [List.mem_singleton] at hnew
      rw [hnew]
      exact ⟨rfl, List.nodup_nil⟩
  · rcases hl : lookupKey vid acc.1.tracked with _ | v0
    · simp only [stepDet, hm, hl]
      exact hinv
    · simp only [stepDet, hm, hl]
      intro p hp
      rcases mem_modifyKey hp with hin | ⟨w0, hw0, he⟩
      · exact hinv p hin
      · rw [he]
        exact hinv (vid, v0) (mem_of_lookupKey hl)

lemma update_countInv (t : Tracker) (dets : List Detection) (f : Nat)
    (hinv : CountInv t) : CountInv (Tracker.update t dets f).1 := by
  have hA : CountInv (ageTracker t) := by
    intro p hp
    rcases List.mem_map.mp hp with ⟨q, hq, he⟩
    rw [← he]
    exact hinv q hq
  have hF : ∀ (ds : List Detection) (acc : Tracker × List TrackView), CountInv acc.1 →
      CountInv (ds.foldl (stepDet t.iou_threshold f) acc).1 := by
    intro ds
    induction ds with
    | nil => intro acc h; exact h
    | cons d ds2 ih =>
      intro acc h
      rw [List.foldl_cons]
      exact ih _ (stepDet_countInv _ _ _ _ h)
  intro p hp
  exact hF dets (ageTracker t, []) hA p (List.mem_of_mem_filter hp)

lemma calculate_speed_state {t : Tracker} {vid : Nat} {fps ppm spd : ℚ} {t2 : Tracker}
    (h : Tracker.calculate_speed t vid fps ppm = some (spd, t2)) :
    t2 = t ∨
    t2 = { t with tracked := modifyKey vid (fun w => { w with speedKmh := spd }) t.tracked } := by
  rcases hl : lookupKey vid t.tracked with _ | v
  · simp only [Tracker.calculate_speed, hl] at h
    left
    exact (congrArg Prod.snd (Option.some_inj.mp h)).symm
  · simp only [Tracker.calculate_speed, hl] at h
    by_cases hc : v.centroids.length < 2
    · rw [if_pos hc] at h
      left
      exact (congrArg Prod.snd (Option.some_inj.mp h)).symm
    · rw [if_neg hc] at h
      by_cases hppm : ppm = 0
      · rw [if_pos hppm] at h
        cases h
      · rw [if_neg hppm] at h
        by_cases hfps : fps = 0
        · rw [if_pos hfps] at h
          cases h
        · rw [if_neg hfps] at h
          right
          have hpair := Option.some_inj.mp h
          have hs := congrArg Prod.fst hpair
          have ht := congrArg Prod.snd hpair
          simp only at hs ht
          rw [← ht, hs]

lemma countInv_modify_pres (t : Tracker) (vid : Nat) (f : Vehicle → Vehicle)
    (hf : ∀ w, (f w).violationCount = w.violationCount ∧ (f w).violatedTypes = w.violatedTypes)
    (hinv : CountInv t) :
    CountInv { t with tracked := modifyKey vid f t.tracked } := by
  intro p hp
  rcases mem_modifyKey hp with hin | ⟨v0, hv0, he⟩
  · exact hinv p hin
  · rw [he]
    obtain ⟨h1, h2⟩ := hinv (vid, v0) hv0
    obtain ⟨g1, g2⟩ := hf v0
    exact ⟨by rw [g1, g2]; exact h1, by rw [g2]; exact h2⟩

lemma trackerWF_modify (t : Tracker) (vid : Nat) (f : Vehicle → Vehicle)
    (hwf : TrackerWF t) :
    TrackerWF { t with tracked := modifyKey vid f t.tracked } := by
  constructor
  · show ((modifyKey vid f t.tracked).map Prod.fst).Pairwise (· < ·)
    rw [keys_modifyKey]
    exact hwf.1
  · intro k hk
    show k < t.next_id
    apply hwf.2 k
    rw [← keys_modifyKey vid f]
    exact hk

lemma update_wf (t : Tracker) (dets : List Detection) (f : Nat) (hwf : TrackerWF t) :
    TrackerWF (Tracker.update t dets f).1 :=
  trackerWF_filter _ _
    (foldl_stepDet_props t.iou_threshold f dets (ageTracker t, []) (ageTracker_wf t hwf)).1

/-- C10: in every reachable tracker state, each live track satisfies
`violation_count = |violated_types|`, the recorded types being
duplicate-free — the two are created together at 0 and the empty set, and
only `mark_violation` ever changes both, in lock step. -/
theorem violation_count_invariant (thr : ℚ) (mmf : Nat) (t : Tracker)
    (hreach : TrackerReach thr mmf t) (vid : Nat) (v : Vehicle)
    (hv : lookupKey vid t.tracked = some v) :
    v.violationCount = v.violatedTypes.length ∧ v.violatedTypes.Nodup := by
  suffices h : TrackerWF t ∧ CountInv t by
    exact h.2 (vid, v) (mem_of_lookupKey hv)
  clear hv
  induction hreach with
  | init =>
    exact ⟨⟨List.Pairwise.nil, by intro k hk; simp [Tracker.init] at hk⟩,
      by intro p hp; simp [Tracker.init] at hp⟩
  | step_update t dets f hr ih =>
    exact ⟨update_wf t dets f ih.1, update_countInv t dets f ih.2⟩
  | step_speed t t2 vid2 fps ppm spd hr hs ih =>
    rcases calculate_speed_state hs with he | he
    · rw [he]
      exact ih
    · rw [he]
      exact ⟨trackerWF_modify t vid2 _ ih.1,
        countInv_modify_pres t vid2 _ (fun w => ⟨rfl, rfl⟩) ih.2⟩
  | step_mark t vid2 ty hr ih =>
    rcases hl : lookupKey vid2 t.tracked with _ | v0
    · simp only [Tracker.mark_violation, hl]
      exact ih
    · by_cases hmem : ty ∈ v0.violatedTypes
      · simp only [Tracker.mark_violation, hl]
        rw [if_pos hmem]
        exact ih
      · simp only [Tracker.mark_violation, hl]
        rw [if_neg hmem]
        constructor
        · exact trackerWF_modify t vid2 _ ih.1
        · intro p hp
          rcases mem_modifyKey hp with hin | ⟨w0, hw0, he⟩
          · exact ih.2 p hin
          · have hnd : (t.tracked.map Prod.fst).Nodup :=
              List.Pairwise.imp (fun hlt => Nat.ne_of_lt hlt) ih.1.1
            have hw0v : w0 = v0 :=
              Option.some_inj.mp ((lookupKey_of_mem hnd hw0).symm.trans hl)
            obtain ⟨h1, h2⟩ := ih.2 (vid2, w0) hw0
            rw [he]
            constructor
            · show w0.violationCount + 1 = (ty :: w0.violatedTypes).length
              rw [h1]
              rfl
            · show (ty :: w0.violatedTypes).Nodup
              exact List.nodup_cons.mpr ⟨by rw [hw0v]; exact hmem, h2⟩
  | step_plate t vid2 plate hr ih =>
    refine ⟨trackerWF_modify t vid2 _ ih.1, ?_⟩
    exact countInv_modify_pres t vid2 _ (fun w => ⟨rfl, rfl⟩) ih.2

/-- State after marking one violation on the single track created from one
detection, used as the C10 witness. -/
def vMarked : Vehicle :=
  { vW with
    violationCount := 1
    hasViolated := true
    violatedTypes := ["Red Light Violation"] }

/-- Tracker reached by one update and one mark, used as the C10 witness. -/
def tReached : Tracker :=
  (Tracker.mark_violation
    (Tracker.update (Tracker.init (3 / 10) 10) [⟨⟨0, 0, 10, 10⟩, "car", 9 / 10⟩] 0).1
    1 "Red Light Violation").2

/-- C10 witness: in the concrete reachable state `tReached`, track 1 has
counter 1 and exactly the one recorded type. -/
theorem violation_count_invariant_witness :
    lookupKey 1 tReached.tracked = some vMarked ∧
    (vMarked.violationCount = vMarked.violatedTypes.length ∧
      vMarked.violatedTypes.Nodup) :=
  ⟨by decide,
   violation_count_invariant (3 / 10) 10 tReached
     (TrackerReach.step_mark _ 1 "Red Light Violation"
       (TrackerReach.step_update _ [⟨⟨0, 0, 10, 10⟩, "car", 9 / 10⟩] 0 TrackerReach.init))
     1 vMarked (by decide)⟩

/-- C1: a pending entry whose age has reached the 5-frame confirmation
delay is resolved in exactly one attempt: its entry is deleted from the
queue whatever happens; if it is a speeding violation whose recomputed
speed is not above the limit, nothing is persisted; otherwise exactly one
record is persisted carrying the recomputed (rounded) speed, the pending
type, and the detection-time frame number. -/
theorem pending_resolution_correct (cfg : CoordConfig) (st : CoordState)
    (vid : Nat) (p : Pending) (spd : ℚ) (tr2 : Tracker)
    (hripe : (st.frameIdx : ℤ) - (p.detectedFrame : ℤ) ≥ 5)
    (hspd : Tracker.calculate_speed st.tracker vid cfg.fps cfg.ppm = some (spd, tr2)) :
    ∃ st2, resolveOne cfg st vid p = some st2 ∧
      st2.pending = eraseKey vid st.pending ∧
      (p.violationType = "Speeding Violation" ∧ spd ≤ cfg.speedLimit →
        st2.saved = st.saved) ∧
      (¬ (p.violationType = "Speeding Violation" ∧ spd ≤ cfg.speedLimit) →
        ∃ rec, st2.saved = st.saved ++ [rec] ∧
          rec.violationType = p.violationType ∧
          rec.speedKmh = roundTo1 spd ∧
          rec.frameNumber = p.detectedFrame ∧
          rec.vehicleType = p.vehicleType ∧
          rec.signalState = p.signalState) := by
  by_cases hd : p.violationType = "Speeding Violation" ∧ spd ≤ cfg.speedLimit
  · have hcomp : resolveOne cfg st vid p
        = some { st with tracker := tr2, pending := eraseKey vid st.pending } := by
      simp [resolveOne, hripe, hspd, hd]
    exact ⟨_, hcomp, rfl, fun _ => rfl, fun hnd => absurd hd hnd⟩
  · have hcomp : resolveOne cfg st vid p
        = some { st with
            tracker := tr2
            saved := st.saved ++
              [{ violationType := p.violationType
                 vehicleType := p.vehicleType
                 licensePlate :=
                   match (lookupKey vid tr2.tracked).bind (fun v => v.licensePlate) with
                   | some tx => if tx = "" then p.plateText else tx
                   | none => p.plateText
                 speedKmh := roundTo1 spd
                 signalState := p.signalState
                 frameNumber := p.detectedFrame }]
            pending := eraseKey vid st.pending } := by
      simp [resolveOne, hripe, hspd, hd]
    exact ⟨_, hcomp, rfl, fun hdd => absurd hdd hd,
      fun _ => ⟨_, rfl, rfl, rfl, rfl, rfl, rfl⟩⟩

/-- Coordinator configuration used by the concrete runs: speed limit 60,
30 pixels per meter, 30 fps. -/
def cfgW : CoordConfig := { speedLimit := 60, ppm := 30, fps := 30 }

/-- External OCR collaborator that never produces a plate. -/
def anprNone : Nat → Option String := fun _ => none

/-- A red-light pending entry detected at frame 0. -/
def pRedW : Pending :=
  { detectedFrame := 0
    vehicleType := "car"
    plateText := "ID-1"
    signalState := "red"
    violationType := "Red Light Violation"
    bbox := ⟨0, 260, 100, 400⟩ }

/-- Coordinator state at frame 10 with the ripe pending entry `pRedW`. -/
def stResW : CoordState :=
  { tracker := Tracker.init (3 / 10) 10
    redLight := { stopLineY := some 300, positions := [] }
    pending := [(1, pRedW)]
    saved := []
    frameIdx := 10 }

/-- C1 witness: the ripe red-light entry of `stResW` is resolved: the
queue entry is deleted and one record is persisted. -/
theorem pending_resolution_correct_witness :
    ((stResW.frameIdx : ℤ) - (pRedW.detectedFrame : ℤ) ≥ 5) ∧
    Tracker.calculate_speed stResW.tracker 1 cfgW.fps cfgW.ppm
      = some (0, stResW.tracker) ∧
    ∃ st2, resolveOne cfgW stResW 1 pRedW = some st2 ∧
      st2.pending = eraseKey 1 stResW.pending ∧
      (pRedW.violationType = "Speeding Violation" ∧ (0 : ℚ) ≤ cfgW.speedLimit →
        st2.saved = stResW.saved) ∧
      (¬ (pRedW.violationType = "Speeding Violation" ∧ (0 : ℚ) ≤ cfgW.speedLimit) →
        ∃ rec, st2.saved = stResW.saved ++ [rec] ∧
          rec.violationType = pRedW.violationType ∧
          rec.speedKmh = roundTo1 0 ∧
          rec.frameNumber = pRedW.detectedFrame ∧
          rec.vehicleType = pRedW.vehicleType ∧
          rec.signalState = pRedW.signalState) :=
  ⟨by decide, by decide,
   pending_resolution_correct cfgW stResW 1 pRedW 0 stResW.tracker (by decide) (by decide)⟩

/-- Fresh coordinator state with a stop line at y = 300. -/
def cstC : CoordState := CoordState.init (some 300)

/-- Detection that crosses the stop line on frame 0 (bottom 400 > 300). -/
def dRed : Detection := { bbox := ⟨0, 260, 100, 400⟩, className := "car", confidence := 9 / 10 }

/-- Frame-1 detection of the same car, displaced by (30, 40) — 50 pixels,
giving a raw speed of 90 km/h, above the 60 km/h limit. -/
def dSpeed : Detection := { bbox := ⟨30, 300, 130, 440⟩, className := "car", confidence := 9 / 10 }

/-- C2 counterexample: vehicle 1 crosses on red at frame 0, queueing a
red-light pending entry; on frame 1 the same vehicle trips the speeding
check, `mark_violation` returns true for the new type, and the fresh
speeding entry OVERWRITES the still-unresolved red-light entry — which is
lost without ever being persisted (`saved` stays empty). -/
theorem pending_overwrite_counterexample :
    ((processFrame cfgW anprNone cstC [dRed] "red").map
        (fun s => s.pending.map (fun q => (q.1, q.2.violationType, q.2.detectedFrame)))
      = some [(1, "Red Light Violation", 0)]) ∧
    (((processFrame cfgW anprNone cstC [dRed] "red").bind
        (fun s1 => processFrame cfgW anprNone s1 [dSpeed] "red")).map
        (fun s => (s.pending.map (fun q => (q.1, q.2.violationType, q.2.detectedFrame)),
          s.saved.length))
      = some ([(1, "Speeding Violation", 1)], 0)) := by
  constructor
  · decide
  · decide

/-- Coordinator states reachable from a fresh session by processed frames
(with arbitrary detections, signal colours and OCR outcomes per frame). -/
inductive CoordReach (cfg : CoordConfig) : CoordState → Prop where
  | init (stopLineY : Option ℤ) : CoordReach cfg (CoordState.init stopLineY)
  | step (st st2 : CoordState) (anpr : Nat → Option String) (dets : List Detection)
      (signal : String) :
      CoordReach cfg st → processFrame cfg anpr st dets signal = some st2 →
      CoordReach cfg st2

lemma mem_keys_upsertKey {α : Type} {j k : Nat} {v : α} {l : List (Nat × α)}
    (h : j ∈ (upsertKey k v l).map Prod.fst) : j = k ∨ j ∈ l.map Prod.fst := by
  induction l with
  | nil =>
    simp [upsertKey] at h
    exact Or.inl h
  | cons p l ih =>
    simp only [upsertKey] at h
    by_cases hp : p.1 = k
    · rw [if_pos hp] at h
      simp only [List.map_cons, List.mem_cons] at h
      rcases h with he | h2
      · exact Or.inl he
      · exact Or.inr (by rw [List.map_cons]; exact List.mem_cons_of_mem _ h2)
    · rw [if_neg hp] at h
      simp only [List.map_cons, List.mem_cons] at h
      rcases h with he | h2
      · rw [List.map_cons]
        exact Or.inr (by rw [he]; exact List.mem_cons_self _ _)
      · rcases ih h2 with hk | hin
        · exact Or.inl hk
        · rw [List.map_cons]
          exact Or.inr (List.mem_cons_of_mem _ hin)

lemma nodup_upsertKey {α : Type} (k : Nat) (v : α) {l : List (Nat × α)}
    (h : (l.map Prod.fst).Nodup) : ((upsertKey k v l).map Prod.fst).Nodup := by
  induction l with
  | nil => simp [upsertKey]
  | cons p l ih =>
    simp only [List.map_cons, List.nodup_cons] at h
    simp only [upsertKey]
    by_cases hp : p.1 = k
    · rw [if_pos hp]
      simp only [List.map_cons, List.nodup_cons]
      refine ⟨?_, h.2⟩
      rw [← hp]
      exact h.1
    · rw [if_neg hp]
      simp only [List.map_cons, List.nodup_cons]
      refine ⟨?_, ih h.2⟩
      intro hmem
      rcases mem_keys_upsertKey hmem with he | hin
      · exact hp he
      · exact h.1 hin

lemma eraseKey_sublist {α : Type} (k : Nat) (l : List (Nat × α)) :
    (eraseKey k l).Sublist l := by
  induction l with
  | nil => simp [eraseKey]
  | cons p l ih =>
    simp only [eraseKey]
    by_cases hp : p.1 = k
    · rw [if_pos hp]
      exact ih.cons p
    · rw [if_neg hp]
      exact ih.cons₂ p

lemma nodup_eraseKey {α : Type} (k : Nat) {l : List (Nat × α)}
    (h : (l.map Prod.fst).Nodup) : ((eraseKey k l).map Prod.fst).Nodup :=
  List.Nodup.sublist (List.Sublist.map Prod.fst (eraseKey_sublist k l)) h

lemma mem_eraseKey {α : Type} {k : Nat} {q : Nat × α} {l : List (Nat × α)}
    (h : q ∈ eraseKey k l) : q ∈ l ∧ q.1 ≠ k := by
  induction l with
  | nil => simp [eraseKey] at h
  | cons p l ih =>
    simp only [eraseKey] at h
    by_cases hp : p.1 = k
    · rw [if_pos hp] at h
      obtain ⟨h1, h2⟩ := ih h
      exact ⟨List.mem_cons_of_mem _ h1, h2⟩
    · rw [if_neg hp] at h
      rcases List.mem_cons.mp h with he | h2
      · subst he
        exact ⟨List.mem_cons_self _ _, hp⟩
      · obtain ⟨h1, h2⟩ := ih h2
        exact ⟨List.mem_cons_of_mem _ h1, h2⟩

lemma processViolationEvent_state (anpr : Nat → Option String) (st : CoordState)
    (vid : Nat) (ty : String) (bbox : Box) (signal cls : String) :
    (processViolationEvent anpr st vid ty bbox signal cls).frameIdx = st.frameIdx ∧
    (processViolationEvent anpr st vid ty bbox signal cls).saved = st.saved ∧
    ((processViolationEvent anpr st vid ty bbox signal cls).pending = st.pending ∨
      ∃ pnew : Pending, pnew.detectedFrame = st.frameIdx ∧ pnew.violationType = ty ∧
        (processViolationEvent anpr st vid ty bbox signal cls).pending
          = upsertKey vid pnew st.pending) := by
  by_cases hb : (Tracker.mark_violation st.tracker vid ty).1 = true
  · rcases ha : anpr vid with _ | tx
    · refine ⟨?_, ?_, Or.inr ⟨{ detectedFrame := st.frameIdx, vehicleType := cls, plateText := "ID-" ++ toString vid, signalState := signal, violationType := ty, bbox := bbox }, rfl, rfl, ?_⟩⟩ <;>
        simp [processViolationEvent, hb, ha]
    · refine ⟨?_, ?_, Or.inr ⟨{ detectedFrame := st.frameIdx, vehicleType := cls, plateText := tx, signalState := signal, violationType := ty, bbox := bbox }, rfl, rfl, ?_⟩⟩ <;>
        simp [processViolationEvent, hb, ha]
  · simp only [Bool.not_eq_true] at hb
    refine ⟨?_, ?_, Or.inl ?_⟩ <;> simp [processViolationEvent, hb]

lemma resolveOne_shape (cfg : CoordConfig) (s : CoordState) (vid : Nat) (p : Pending)
    (s3 : CoordState) (h : resolveOne cfg s vid p = some s3) :
    s3.frameIdx = s.frameIdx ∧
    (s3.pending = s.pending ∨ s3.pending = eraseKey vid s.pending) ∧
    ((s.frameIdx : ℤ) - (p.detectedFrame : ℤ) ≥ 5 → s3.pending = eraseKey vid s.pending) := by
  by_cases hr : (s.frameIdx : ℤ) - (p.detectedFrame : ℤ) ≥ 5
  · rcases hsp : Tracker.calculate_speed s.tracker vid cfg.fps cfg.ppm with _ | r
    · unfold resolveOne at h
      rw [if_pos hr, hsp] at h
      cases h
    · obtain ⟨spd, tr2⟩ := r
      by_cases hd : p.violationType = "Speeding Violation" ∧ spd ≤ cfg.speedLimit
      · have hcomp : resolveOne cfg s vid p
            = some { s with tracker := tr2, pending := eraseKey vid s.pending } := by
          simp [resolveOne, hr, hsp, hd]
        rw [hcomp] at h
        have he := Option.some_inj.mp h
        rw [← he]
        exact ⟨rfl, Or.inr rfl, fun _ => rfl⟩
      · have hcomp : resolveOne cfg s vid p
            = some { s with
                tracker := tr2
                saved := s.saved ++
                  [{ violationType := p.violationType
                     vehicleType := p.vehicleType
                     licensePlate :=
                       match (lookupKey vid tr2.tracked).bind (fun v => v.licensePlate) with
                       | some tx => if tx = "" then p.plateText else tx
                       | none => p.plateText
                     speedKmh := roundTo1 spd
                     signalState := p.signalState
                     frameNumber := p.detectedFrame }]
                pending := eraseKey vid s.pending } := by
          simp [resolveOne, hr, hsp, hd]
        rw [hcomp] at h
        have he := Option.some_inj.mp h
        rw [← he]
        exact ⟨rfl, Or.inr rfl, fun _ => rfl⟩
  · unfold resolveOne at h
    rw [if_neg hr] at h
    have he := Option.some_inj.mp h
    rw [← he]
    exact ⟨rfl, Or.inl rfl, fun hc => absurd hc hr⟩

lemma foldlM_option_preserve {σ α : Type} (g : σ → α → Option σ) (P : σ → Prop)
    (hg : ∀ s a s2, P s → g s a = some s2 → P s2) :
    ∀ (l : List α) (s s2 : σ), P s → l.foldlM g s = some s2 → P s2 := by
  intro l
  induction l with
  | nil =>
    intro s s2 hP h
    simp only [List.foldlM_nil] at h
    have he : s = s2 := Option.some_inj.mp h
    rw [← he]
    exact hP
  | cons a l ih =>
    intro s s2 hP h
    simp only [List.foldlM_cons] at h
    rcases hga : g s a with _ | s1
    · rw [hga] at h
      cases h
    · rw [hga] at h
      simp only [Option.bind_eq_bind, Option.some_bind] at h
      exact ih s1 s2 (hg s a s1 hP hga) h

lemma foldlM_option_append {σ α : Type} (g : σ → α → Option σ) :
    ∀ (l1 l2 : List α) (s : σ),
      (l1 ++ l2).foldlM g s = (l1.foldlM g s).bind (fun s1 => l2.foldlM g s1) := by
  intro l1
  induction l1 with
  | nil =>
    intro l2 s
    simp
  | cons a l ih =>
    intro l2 s
    simp only [List.cons_append, List.foldlM_cons]
    rcases hga : g s a with _ | s1
    · simp [hga]
    · simp [hga, ih]

lemma ppGo (cfg : CoordConfig) :
    ∀ (ks : List Nat) (s s2 : CoordState),
      ks.foldlM
        (fun s3 vid =>
          match lookupKey vid s3.pending with
          | some p => resolveOne cfg s3 vid p
          | none => some s3) s = some s2 →
      (s.pending.map Prod.fst).Nodup →
      (∀ q ∈ s.pending, (s.frameIdx : ℤ) - (q.2.detectedFrame : ℤ) ≥ 5 → q.1 ∈ ks) →
      s2.frameIdx = s.frameIdx ∧ (s2.pending.map Prod.fst).Nodup ∧
      ∀ q ∈ s2.pending, (s.frameIdx : ℤ) - (q.2.detectedFrame : ℤ) < 5 := by
  intro ks
  induction ks with
  | nil =>
    intro s s2 h hnd hsub
    simp only [List.foldlM_nil] at h
    have he : s = s2 := Option.some_inj.mp h
    rw [← he]
    refine ⟨rfl, hnd, ?_⟩
    intro q hq
    by_contra hge
    push_neg at hge
    exact absurd (hsub q hq (by omega)) (List.not_mem_nil q.1)
  | cons k ks ih =>
    intro s s2 h hnd hsub
    simp only [List.foldlM_cons] at h
    rcases hlk : lookupKey k s.pending with _ | p
    · simp only [hlk, Option.bind_eq_bind, Option.some_bind] at h
      refine ih s s2 h hnd ?_
      intro q hq hge
      rcases List.mem_cons.mp (hsub q hq hge) with he | hm
      · exfalso
        apply lookupKey_none_not_mem hlk
        rw [← he]
        exact List.mem_map.mpr ⟨q, hq, rfl⟩
      · exact hm
    · simp only [hlk] at h
      rcases hres : resolveOne cfg s k p with _ | s3
      · rw [hres] at h
        cases h
      · rw [hres] at h
        simp only [Option.bind_eq_bind, Option.some_bind] at h
        by_cases hr : (s.frameIdx : ℤ) - (p.detectedFrame : ℤ) ≥ 5
        · obtain ⟨hf3, _, hper⟩ := resolveOne_shape cfg s k p s3 hres
          have hp3 : s3.pending = eraseKey k s.pending := hper hr
          have hnd3 : (s3.pending.map Prod.fst).Nodup := by
            rw [hp3]
            exact nodup_eraseKey k hnd
          have hsub3 : ∀ q ∈ s3.pending,
              (s3.frameIdx : ℤ) - (q.2.detectedFrame : ℤ) ≥ 5 → q.1 ∈ ks := by
            intro q hq hge
            rw [hp3] at hq
            obtain ⟨hqin, hqne⟩ := mem_eraseKey hq
            rw [hf3] at hge
            rcases List.mem_cons.mp (hsub q hqin hge) with he | hm
            · exact absurd he hqne
            · exact hm
          obtain ⟨i1, i2, i3⟩ := ih s3 s2 h hnd3 hsub3
          refine ⟨by rw [i1, hf3], i2, ?_⟩
          intro q hq
          have hlt := i3 q hq
          rw [hf3] at hlt
          exact hlt
        · have hs3 : s3 = s := by
            unfold resolveOne at hres
            rw [if_neg hr] at hres
            exact (Option.some_inj.mp hres).symm
          subst hs3
          have hsub3 : ∀ q ∈ s3.pending,
              (s3.frameIdx : ℤ) - (q.2.detectedFrame : ℤ) ≥ 5 → q.1 ∈ ks := by
            intro q hq hge
            rcases List.mem_cons.mp (hsub q hq hge) with he | hm
            · exfalso
              have hqe : q = (k, q.2) := by rw [← he]
              have hlq : lookupKey k s3.pending = some q.2 := by
                apply lookupKey_of_mem hnd
                rw [← hqe]
                exact hq
              rw [hlk] at hlq
              have hq2 : q.2 = p := Option.some_inj.mp hlq.symm
              rw [hq2] at hge
              exact hr hge
            · exact hm
          exact ih s3 s2 h hnd hsub3

lemma processPendings_props (cfg : CoordConfig) (s s2 : CoordState)
    (hnd : (s.pending.map Prod.fst).Nodup)
    (h : processPendings cfg s = some s2) :
    s2.frameIdx = s.frameIdx ∧ (s2.pending.map Prod.fst).Nodup ∧
    ∀ q ∈ s2.pending, (s.frameIdx : ℤ) - (q.2.detectedFrame : ℤ) < 5 := by
  unfold processPendings at h
  exact ppGo cfg (s.pending.map Prod.fst) s s2 h hnd
    (fun q hq _ => List.mem_map.mpr ⟨q, hq, rfl⟩)

lemma pve_props (anpr : Nat → Option String) (stx : CoordState) (vid : Nat)
    (ty : String) (b2 : Box) (sg2 c2 : String) :
    (processViolationEvent anpr stx vid ty b2 sg2 c2).frameIdx = stx.frameIdx ∧
    ((stx.pending.map Prod.fst).Nodup →
      ((processViolationEvent anpr stx vid ty b2 sg2 c2).pending.map Prod.fst).Nodup) := by
  obtain ⟨h1, h2, h3⟩ := processViolationEvent_state anpr stx vid ty b2 sg2 c2
  refine ⟨h1, fun hnd => ?_⟩
  rcases h3 with hsame | ⟨pnew, _, _, hup⟩
  · rw [hsame]
    exact hnd
  · rw [hup]
    exact nodup_upsertKey _ _ hnd

lemma vehicleChecks_props (cfg : CoordConfig) (anpr : Nat → Option String)
    (signal : String) (st1 : CoordState) (veh : TrackView) (spd : ℚ) :
    (vehicleChecks cfg anpr signal st1 veh spd).frameIdx = st1.frameIdx ∧
    ((st1.pending.map Prod.fst).Nodup →
      ((vehicleChecks cfg anpr signal st1 veh spd).pending.map Prod.fst).Nodup) := by
  simp only [vehicleChecks]
  by_cases hF : (checkViolation st1.redLight veh.id veh.bbox signal).1 = true
  · rw [if_pos hF]
    by_cases hS : spd > cfg.speedLimit
    · rw [if_pos hS]
      obtain ⟨a1, a2⟩ := pve_props anpr
        { st1 with redLight := (checkViolation st1.redLight veh.id veh.bbox signal).2 }
        veh.id "Red Light Violation" veh.bbox signal veh.className
      obtain ⟨b1, b2⟩ := pve_props anpr
        (processViolationEvent anpr
          { st1 with redLight := (checkViolation st1.redLight veh.id veh.bbox signal).2 }
          veh.id "Red Light Violation" veh.bbox signal veh.className)
        veh.id "Speeding Violation" veh.bbox signal veh.className
      exact ⟨by rw [b1, a1], fun hnd => b2 (a2 hnd)⟩
    · rw [if_neg hS]
      exact pve_props anpr _ veh.id "Red Light Violation" veh.bbox signal veh.className
  · rw [if_neg hF]
    by_cases hS : spd > cfg.speedLimit
    · rw [if_pos hS]
      exact pve_props anpr _ veh.id "Speeding Violation" veh.bbox signal veh.className
    · rw [if_neg hS]
      exact ⟨rfl, fun hnd => hnd⟩

lemma processVehicle_props (cfg : CoordConfig) (anpr : Nat → Option String)
    (signal : String) (s : CoordState) (v : TrackView) (s2 : CoordState)
    (hnd : (s.pending.map Prod.fst).Nodup)
    (h : processVehicle cfg anpr signal s v = some s2) :
    s2.frameIdx = s.frameIdx ∧ (s2.pending.map Prod.fst).Nodup ∧
    ∀ q ∈ s2.pending, (s.frameIdx : ℤ) - (q.2.detectedFrame : ℤ) < 5 := by
  unfold processVehicle at h
  rcases hsp : Tracker.calculate_speed s.tracker v.id cfg.fps cfg.ppm with _ | r
  · rw [hsp] at h
    cases h
  · rw [hsp] at h
    simp only [Option.some_bind] at h
    obtain ⟨e1, e2⟩ := vehicleChecks_props cfg anpr signal { s with tracker := r.2 } v r.1
    obtain ⟨f1, f2, f3⟩ := processPendings_props cfg
      (vehicleChecks cfg anpr signal { s with tracker := r.2 } v r.1) s2 (e2 hnd) h
    refine ⟨by rw [f1, e1], f2, ?_⟩
    intro q hq
    have hlt := f3 q hq
    rw [e1] at hlt
    exact hlt

lemma processFrame_props (cfg : CoordConfig) (anpr : Nat → Option String)
    (st : CoordState) (dets : List Detection) (signal : String) (st2 : CoordState)
    (hnd : (st.pending.map Prod.fst).Nodup)
    (h : processFrame cfg anpr st dets signal = some st2) :
    st2.frameIdx = st.frameIdx + 1 ∧ (st2.pending.map Prod.fst).Nodup ∧
    ((Tracker.update st.tracker dets st.frameIdx).2 ≠ [] →
      ∀ q ∈ st2.pending, (st.frameIdx : ℤ) - (q.2.detectedFrame : ℤ) < 5) := by
  simp only [processFrame] at h
  rcases hf : (Tracker.update st.tracker dets st.frameIdx).2.foldlM
      (processVehicle cfg anpr signal)
      { st with tracker := (Tracker.update st.tracker dets st.frameIdx).1 } with _ | sMid
  · rw [hf] at h
    cases h
  · rw [hf] at h
    simp only [Option.map_some'] at h
    have hst2 := Option.some_inj.mp h
    have hP : (sMid.pending.map Prod.fst).Nodup ∧ sMid.frameIdx = st.frameIdx := by
      refine foldlM_option_preserve (processVehicle cfg anpr signal)
        (fun s => (s.pending.map Prod.fst).Nodup ∧ s.frameIdx = st.frameIdx)
        ?_ (Tracker.update st.tracker dets st.frameIdx).2
        { st with tracker := (Tracker.update st.tracker dets st.frameIdx).1 }
        sMid ⟨hnd, rfl⟩ hf
      intro s a s3 hPs hstep
      obtain ⟨g1, g2, _⟩ := processVehicle_props cfg anpr signal s a s3 hPs.1 hstep
      exact ⟨g2, by rw [g1, hPs.2]⟩
    refine ⟨?_, ?_, ?_⟩
    · rw [← hst2]
      show sMid.frameIdx + 1 = st.frameIdx + 1
      rw [hP.2]
    · rw [← hst2]
      exact hP.1
    · intro hne q hq
      rcases List.eq_nil_or_concat (Tracker.update st.tracker dets st.frameIdx).2 with
        hnil | ⟨l, x, hcat⟩
      · exact absurd hnil hne
      · rw [hcat, List.concat_eq_append, foldlM_option_append] at hf
        rcases hfl : l.foldlM (processVehicle cfg anpr signal)
            { st with tracker := (Tracker.update st.tracker dets st.frameIdx).1 } with _ | sPrev
        · rw [hfl] at hf
          cases hf
        · rw [hfl] at hf
          simp only [Option.some_bind, List.foldlM_cons, List.foldlM_nil] at hf
          rcases hpv : processVehicle cfg anpr signal sPrev x with _ | sEnd
          · rw [hpv] at hf
            cases hf
          · rw [hpv] at hf
            simp only [Option.bind_eq_bind, Option.some_bind, Option.pure_def] at hf
            have hEnd : sEnd = sMid := Option.some_inj.mp hf
            have hPprev : (sPrev.pending.map Prod.fst).Nodup ∧ sPrev.frameIdx = st.frameIdx := by
              refine foldlM_option_preserve (processVehicle cfg anpr signal)
                (fun s => (s.pending.map Prod.fst).Nodup ∧ s.frameIdx = st.frameIdx)
                ?_ l
                { st with tracker := (Tracker.update st.tracker dets st.frameIdx).1 }
                sPrev ⟨hnd, rfl⟩ hfl
              intro s a s3 hPs hstep
              obtain ⟨g1, g2, _⟩ := processVehicle_props cfg anpr signal s a s3 hPs.1 hstep
              exact ⟨g2, by rw [g1, hPs.2]⟩
            obtain ⟨_, _, g3⟩ := processVehicle_props cfg anpr signal sPrev x sMid hPprev.1
              (by rw [hpv, hEnd])
            have hq2 : q ∈ sMid.pending := by
              rw [← hst2] at hq
              exact hq
            have hlt := g3 q hq2
            rw [hPprev.2] at hlt
            exact hlt

/-- C2 (amended): every reachable coordinator state has at most one
pending entry per track ID (the keys of the pending queue are
duplicate-free); however, when a second, distinct violation type fires on
a track that already has a pending entry (`mark_violation` returns true),
the new pending entry REPLACES the existing one at that key — the first,
still-unresolved entry is dropped without being persisted (`saved` is
untouched by the event). -/
theorem pending_dedup_and_overwrite (cfg : CoordConfig) :
    (∀ st, CoordReach cfg st → (st.pending.map Prod.fst).Nodup) ∧
    (∀ (anpr : Nat → Option String) (st : CoordState) (vid : Nat) (ty : String)
        (bbox : Box) (signal cls : String),
      (Tracker.mark_violation st.tracker vid ty).1 = true →
      vid ∈ st.pending.map Prod.fst →
      ∃ pnew : Pending,
        (processViolationEvent anpr st vid ty bbox signal cls).pending
          = upsertKey vid pnew st.pending ∧
        pnew.violationType = ty ∧ pnew.detectedFrame = st.frameIdx ∧
        lookupKey vid (processViolationEvent anpr st vid ty bbox signal cls).pending
          = some pnew ∧
        (processViolationEvent anpr st vid ty bbox signal cls).saved = st.saved) := by
  constructor
  · intro st hreach
    induction hreach with
    | init stopLineY => simp [CoordState.init]
    | step st st2 anpr dets signal hr h ih =>
      exact (processFrame_props cfg anpr st dets signal st2 ih h).2.1
  · intro anpr st vid ty bbox signal cls hmark hmem
    rcases ha : anpr vid with _ | tx
    · refine ⟨{ detectedFrame := st.frameIdx, vehicleType := cls, plateText := "ID-" ++ toString vid, signalState := signal, violationType := ty, bbox := bbox },
        ?_, rfl, rfl, ?_, ?_⟩
      · simp [processViolationEvent, hmark, ha]
      · simp [processViolationEvent, hmark, ha, lookupKey_upsertKey_self]
      · simp [processViolationEvent, hmark, ha]
    · refine ⟨{ detectedFrame := st.frameIdx, vehicleType := cls, plateText := tx, signalState := signal, violationType := ty, bbox := bbox },
        ?_, rfl, rfl, ?_, ?_⟩
      · simp [processViolationEvent, hmark, ha]
      · simp [processViolationEvent, hmark, ha, lookupKey_upsertKey_self]
      · simp [processViolationEvent, hmark, ha]

/-- Coordinator state at frame 3 whose track 1 already has the pending
red-light entry `pRedW`, used as the C2 witness. -/
def stOvW : CoordState :=
  { tracker := tW
    redLight := { stopLineY := some 300, positions := [] }
    pending := [(1, pRedW)]
    saved := []
    frameIdx := 3 }

/-- C2 witness: pending keys of a reachable state are duplicate-free, and
on `stOvW` a speeding event on track 1 replaces the queued red-light
entry without persisting it. -/
theorem pending_dedup_and_overwrite_witness :
    ((CoordState.init (some 300)).pending.map Prod.fst).Nodup ∧
    (Tracker.mark_violation stOvW.tracker 1 "Speeding Violation").1 = true ∧
    1 ∈ stOvW.pending.map Prod.fst ∧
    (∃ pnew : Pending,
      (processViolationEvent anprNone stOvW 1 "Speeding Violation" ⟨0, 0, 10, 10⟩
          "red" "car").pending = upsertKey 1 pnew stOvW.pending ∧
      pnew.violationType = "Speeding Violation" ∧ pnew.detectedFrame = stOvW.frameIdx ∧
      lookupKey 1 (processViolationEvent anprNone stOvW 1 "Speeding Violation"
          ⟨0, 0, 10, 10⟩ "red" "car").pending = some pnew ∧
      (processViolationEvent anprNone stOvW 1 "Speeding Violation" ⟨0, 0, 10, 10⟩
          "red" "car").saved = stOvW.saved) :=
  ⟨(pending_dedup_and_overwrite cfgW).1 (CoordState.init (some 300))
      (CoordReach.init (some 300)),
   by decide, by decide,
   (pending_dedup_and_overwrite cfgW).2 anprNone stOvW 1 "Speeding Violation"
     ⟨0, 0, 10, 10⟩ "red" "car" (by decide) (by decide)⟩

/-- C4 counterexample: vehicle 1 queues a red-light pending entry at
frame 0 and then disappears; frames 1-5 have no tracked vehicles, so on
frame 5 — where `framesSince = 5` has reached the confirmation delay —
the resolution loop never runs (it sits inside the per-vehicle loop) and
the ripe entry is still pending after the frame, with nothing persisted. -/
theorem pending_unresolved_empty_frame_counterexample :
    (runFrames cfgW anprNone cstC
        ([([dRed], "red")] ++ List.replicate 5 ([], "red"))).map
      (fun s => (s.frameIdx, s.pending.map (fun q => (q.1, q.2.detectedFrame)),
        s.saved.length))
      = some (6, [(1, 0)], 0) := by decide

/-- C4 (amended): on any processed frame in which at least one vehicle is
tracked (matched or created), every pending entry that had reached the
5-frame confirmation delay is resolved during that frame: after the frame
no pending entry has `framesSince ≥ 5` relative to the processed frame
index (given the per-track-uniqueness invariant of the queue). -/
theorem ripe_pending_cleared_on_vehicle_frames (cfg : CoordConfig)
    (anpr : Nat → Option String) (st : CoordState) (dets : List Detection)
    (signal : String) (st2 : CoordState)
    (hnd : (st.pending.map Prod.fst).Nodup)
    (hrun : processFrame cfg anpr st dets signal = some st2)
    (hveh : (Tracker.update st.tracker dets st.frameIdx).2 ≠ [])
    (vid : Nat) (p : Pending) (hmem : (vid, p) ∈ st2.pending) :
    (st.frameIdx : ℤ) - (p.detectedFrame : ℤ) < 5 :=
  (processFrame_props cfg anpr st dets signal st2 hnd hrun).2.2 hveh (vid, p) hmem

/-- Coordinator state for the C4 witness: frame 10, a ripe red-light
entry on track 1 and a fresh entry on track 2. -/
def pRecW : Pending :=
  { detectedFrame := 7
    vehicleType := "car"
    plateText := "ID-2"
    signalState := "red"
    violationType := "Red Light Violation"
    bbox := ⟨0, 0, 10, 10⟩ }

/-- C4 witness start state: track 1 live, pending entries for IDs 1
(ripe, detected at 0) and 2 (fresh, detected at 7), frame index 10. -/
def stC4W : CoordState :=
  { tracker := tW
    redLight := { stopLineY := some 300, positions := [] }
    pending := [(1, pRedW), (2, pRecW)]
    saved := []
    frameIdx := 10 }

/-- Detection matching track 1 of `tW` (IoU 1). -/
def dKeep : Detection := { bbox := ⟨0, 0, 10, 10⟩, className := "car", confidence := 9 / 10 }

/-- Result of processing one frame from `stC4W`. -/
def stC4After : CoordState :=
  (processFrame cfgW anprNone stC4W [dKeep] "green").getD (CoordState.init none)

/-- C4 witness: with a vehicle tracked on frame 10, the ripe entry for
track 1 is resolved (persisted and removed) while the fresh entry for
track 2 survives and indeed has age below the delay. -/
theorem ripe_pending_cleared_on_vehicle_frames_witness :
    processFrame cfgW anprNone stC4W [dKeep] "green" = some stC4After ∧
    (stC4W.pending.map Prod.fst).Nodup ∧
    (Tracker.update stC4W.tracker [dKeep] stC4W.frameIdx).2 ≠ [] ∧
    lookupKey 1 stC4After.pending = none ∧ stC4After.saved.length = 1 ∧
    (2, pRecW) ∈ stC4After.pending ∧
    (stC4W.frameIdx : ℤ) - (pRecW.detectedFrame : ℤ) < 5 :=
  ⟨by decide, by decide, by decide, by decide, by decide, by decide,
   ripe_pending_cleared_on_vehicle_frames cfgW anprNone stC4W [dKeep] "green" stC4After
     (by decide) (by decide) (by decide) 2 pRecW (by decide)⟩

end Traffic
